import Mathlib

/-!
Verification development for dam.js (Downloadable Asset Manager).

The JavaScript source in src/dam.js is shallowly embedded: pure helpers become
Lean functions, JavaScript 32-bit integer arithmetic becomes Nat arithmetic
with explicit masking by 2^32, JavaScript objects used as string-keyed maps
become association lists, and the stateful orchestrators (task scheduler,
download loop, removal loop) become explicit state-passing functions driven by
oracles for the asynchronous collaborators (filesystem, transport).
-/

namespace Dam

set_option maxRecDepth 4000000

/-! SHA-1 (the embedded tiny-sha1 r4 routine of dam.js).

JavaScript bitwise operators work on 32-bit patterns; we model every word as a
natural number below 2^32, masking after each operation that can overflow.
Reads of array holes or out-of-range indices coerce to 0 in the JavaScript
bitwise context, which getD with default 0 reproduces. -/

/-- Reduction modulo 2^32, modelling a JavaScript 32-bit integer result. -/
def mask32 (n : Nat) : Nat := n % 4294967296

/-- Helper L of tiny-sha1: rotate a 32-bit word left by b bits. -/
def rotl32 (a b : Nat) : Nat := mask32 ((a <<< b) ||| (a >>> (32 - b)))

/-- Helper A of tiny-sha1: 32-bit addition (carried out with 16-bit halves in
the source, which amounts to addition modulo 2^32). -/
def add32 (a b : Nat) : Nat := mask32 (a + b)

/-- Bitwise complement of a 32-bit word (JavaScript tilde on a 32-bit pattern). -/
def not32 (a : Nat) : Nat := 4294967295 ^^^ a

/-- Byte sequence that tiny-sha1 reads from a string: charCodeAt(i) & 255. -/
def sha1Bytes (s : String) : List Nat := s.data.map (fun c => c.toNat &&& 255)

/-- Big-endian 32-bit word number j of the byte sequence (missing bytes read
as 0). -/
def sha1BaseWord (bytes : List Nat) (j : Nat) : Nat :=
  ((bytes.getD (4 * j) 0) <<< 24) ||| ((bytes.getD (4 * j + 1) 0) <<< 16) |||
    ((bytes.getD (4 * j + 2) 0) <<< 8) ||| (bytes.getD (4 * j + 3) 0)

/-- Word number j of the padded message.  tiny-sha1 first ORs the 0x80 pad bit
into word bitLen >> 5 and then overwrites word (((bitLen+65) >> 9) << 4) + 15
with the bit length, so the length test comes first here. -/
def sha1PaddedWord (bytes : List Nat) (bitLen : Nat) (j : Nat) : Nat :=
  if j = (((bitLen + 65) >>> 9) <<< 4) + 15 then bitLen
  else
    (sha1BaseWord bytes j) |||
      (if j = bitLen >>> 5 then mask32 (128 <<< (24 - bitLen % 32)) else 0)

/-- Round constant M[j] of tiny-sha1. -/
def sha1K (j : Nat) : Nat :=
  if j < 20 then 1518500249
  else if j < 40 then 1859775393
  else if j < 60 then 2400959708
  else 3395469782

/-- Round bitwise function of tiny-sha1 (choose, parity, majority, parity). -/
def sha1F (j d e f : Nat) : Nat :=
  if j < 20 then (d &&& e) ^^^ ((not32 d) &&& f)
  else if j < 40 then d ^^^ e ^^^ f
  else if j < 60 then (d &&& e) ^^^ (d &&& f) ^^^ (e &&& f)
  else d ^^^ e ^^^ f

/-- First n entries of the expanded message schedule O of tiny-sha1. -/
def sha1Schedule (w : Nat → Nat) : Nat → List Nat
  | 0 => []
  | j + 1 =>
    let o := sha1Schedule w j
    o ++ [if j < 16 then w j
          else rotl32 ((o.getD (j - 3) 0) ^^^ (o.getD (j - 8) 0) ^^^
                        (o.getD (j - 14) 0) ^^^ (o.getD (j - 16) 0)) 1]

/-- Working registers c, d, e, f, g of tiny-sha1's inner loop (also used for
the chaining values v, w, x, y, z). -/
structure Sha1Regs where
  c : Nat
  d : Nat
  e : Nat
  f : Nat
  g : Nat
deriving Repr, DecidableEq

/-- One round of tiny-sha1's inner loop. -/
def sha1Round (o : List Nat) (r : Sha1Regs) (j : Nat) : Sha1Regs :=
  let k := mask32 ((sha1F j r.d r.e r.f) + r.g + sha1K j + (o.getD j 0) + rotl32 r.c 5)
  ⟨k, r.c, rotl32 r.d 30, r.e, r.f⟩

/-- Eighty rounds over one 16-word block followed by the chaining additions. -/
def sha1Compress (st : Sha1Regs) (w : Nat → Nat) : Sha1Regs :=
  let o := sha1Schedule w 80
  let r := (List.range 80).foldl (sha1Round o) st
  ⟨add32 st.c r.c, add32 st.d r.d, add32 st.e r.e, add32 st.f r.f, add32 st.g r.g⟩

/-- Core of tiny-sha1.  The block loop of the source runs for i = 0, 16, ...
while i is below the pre-padding word count h, i.e. for ceil(h/16) blocks. -/
def sha1Core (bytes : List Nat) (bitLen : Nat) : Sha1Regs :=
  let h := (bytes.length + 3) / 4
  let numBlocks := (h + 15) / 16
  (List.range numBlocks).foldl
    (fun st k => sha1Compress st (fun j => sha1PaddedWord bytes bitLen (16 * k + j)))
    ⟨1732584193, 4023233417, 2562383102, 271733878, 3285377520⟩

/-- Lowercase hexadecimal digits used by tiny-sha1. -/
def hexDigits : List Char :=
  "0123456789abcdef".toList

/-- Hexadecimal digit character for a value below 16. -/
def hexChar (n : Nat) : Char := hexDigits.getD n '0'

/-- Eight-digit big-endian hexadecimal rendering of one 32-bit word. -/
def wordHex (w : Nat) : List Char :=
  [hexChar ((w >>> 28) &&& 15), hexChar ((w >>> 24) &&& 15),
   hexChar ((w >>> 20) &&& 15), hexChar ((w >>> 16) &&& 15),
   hexChar ((w >>> 12) &&& 15), hexChar ((w >>> 8) &&& 15),
   hexChar ((w >>> 4) &&& 15), hexChar (w &&& 15)]

/-- The SHA1 function of dam.js (tiny-sha1 r4): 40-character lowercase hex
digest of a string. -/
def SHA1 (s : String) : String :=
  let bytes := sha1Bytes s
  let r := sha1Core bytes (8 * bytes.length)
  String.mk ((wordHex r.c) ++ (wordHex r.d) ++ (wordHex r.e) ++ (wordHex r.f) ++ (wordHex r.g))

/-! Local file names (_localFileName of dam.js). -/

/-- JavaScript uri.lastIndexOf for the dot character: -1 when absent. -/
def lastIndexOfDot (cs : List Char) : Int :=
  match cs.reverse.findIdx? (fun c => c == '.') with
  | none => -1
  | some k => (cs.length : Int) - 1 - k

/-- The function _localFileName of dam.js: SHA1 of the remote identifier, with
the substring from the last dot appended unless that dot sits at index 0, is
absent (lastIndexOf gives -1), or is the final character. -/
def _localFileName (uri : String) : String :=
  let l := lastIndexOfDot uri.data
  SHA1 uri ++
    (if l < 1 ∨ l = (uri.data.length : Int) - 1 then ""
     else String.mk (uri.data.drop l.toNat))

/-- Position of the last dot of a string, as an optional index. -/
def lastDotPos (cs : List Char) : Option Nat :=
  match cs.reverse.findIdx? (fun c => c == '.') with
  | none => none
  | some k => some (cs.length - 1 - k)

/-- Local-name function following the claim's words: a digest of the
identifier with the original file extension appended whenever the identifier
contains a dot that is present and non-trailing. -/
def localFileNameClaim (uri : String) : String :=
  SHA1 uri ++
    (match lastDotPos uri.data with
     | some i => if i + 1 < uri.data.length then String.mk (uri.data.drop i) else ""
     | none => "")

/-- Local-name function following the amended claim: the extension (substring
from the last dot) is appended exactly when that dot sits at index at least 1
and is not the final character. -/
def localFileNameAmended (uri : String) : String :=
  SHA1 uri ++
    (match lastDotPos uri.data with
     | some i => if 1 ≤ i ∧ i + 1 < uri.data.length then String.mk (uri.data.drop i) else ""
     | none => "")

/-! Local URL cache (this.localURLs of dam.js), an object used as a map from
remote file identifiers to local URLs, modelled as an association list. -/

/-- JavaScript hasOwnProperty check on an association-list object. -/
def hasKey (m : List (String × String)) (k : String) : Bool :=
  m.any (fun p => p.1 == k)

/-- The function _addLocalURL of dam.js: record a local URL for a remote file
only when no mapping exists yet. -/
def _addLocalURL (m : List (String × String)) (remoteURL localOfRemote : String) :
    List (String × String) :=
  if hasKey m remoteURL then m else m ++ [(remoteURL, localOfRemote)]

/-- The function _removeLocalURL of dam.js: drop the mapping for a remote file
when one exists. -/
def _removeLocalURL (m : List (String × String)) (remoteURL : String) :
    List (String × String) :=
  if hasKey m remoteURL then m.eraseP (fun p => p.1 == remoteURL) else m

/-- The accessor DAM.prototype.localURL: read of this.localURLs at the remote
identifier; none models the JavaScript undefined result. -/
def localURL (m : List (String × String)) (remoteFile : String) : Option String :=
  match m.find? (fun p => p.1 == remoteFile) with
  | some p => some p.2
  | none => none

/-! Untyped values and bundle validation (_malformedBundle of dam.js). -/

/-- JavaScript values as far as the bundle validation inspects them. -/
inductive JSVal where
  | vStr (s : String)
  | vNum (n : Int)
  | vBool (b : Bool)
  | vArr (elems : List JSVal)
  | vUndef

/-- The argument passed to addBundle: an object carrying the three properties
the validation reads (absent ones are vUndef), or a non-object value. -/
inductive JSBundleArg where
  | obj (name files fileSizes : JSVal)
  | nonObject

/-- JavaScript typeof x == a string test. -/
def isString : JSVal → Bool
  | .vStr _ => true
  | _ => false

/-- JavaScript typeof x == an undefined test. -/
def isUndef : JSVal → Bool
  | .vUndef => true
  | _ => false

/-- The function _isArray of dam.js (Object.prototype.toString tag check). -/
def _isArray : JSVal → Bool
  | .vArr _ => true
  | _ => false

/-- Elements of an array value (empty for non-arrays; only read behind an
_isArray test, mirroring the source). -/
def arrElems : JSVal → List JSVal
  | .vArr elems => elems
  | _ => []

/-- The function _malformedBundle of dam.js: name must be a string, files an
array of strings, and fileSizes, when not undefined, an array of the same
length as files. -/
def _malformedBundle : JSBundleArg → Bool
  | .nonObject => true
  | .obj name files fileSizes =>
    if !(isString name) || !(_isArray files) then true
    else if (arrElems files).any (fun e => !(isString e)) then true
    else if !(isUndef fileSizes) &&
            (!(_isArray fileSizes) || (arrElems fileSizes).length != (arrElems files).length) then
      true
    else false

/-- Structural well-formedness written from the spec's words, to compare with
the source's _malformedBundle: the name is a string, files is a sequence of
strings, and fileSizes is absent or length-matched. -/
def WellFormedBundle (b : JSBundleArg) : Prop :=
  (∃ nm fs, b = JSBundleArg.obj (JSVal.vStr nm) (JSVal.vArr fs) JSVal.vUndef ∧
    ∀ e ∈ fs, ∃ s, e = JSVal.vStr s) ∨
  (∃ nm fs zs, b = JSBundleArg.obj (JSVal.vStr nm) (JSVal.vArr fs) (JSVal.vArr zs) ∧
    (∀ e ∈ fs, ∃ s, e = JSVal.vStr s) ∧ zs.length = fs.length)

/-- String content of a string value (only read after validation). -/
def asStr : JSVal → String
  | .vStr s => s
  | _ => ""

/-- Numeric content of a value as a size hint (only read after validation). -/
def asNat : JSVal → Nat
  | .vNum n => n.toNat
  | _ => 0

/-! Bundle records and tasks. -/

/-- A stored bundle record: the shape dam.js keeps in this.bundles (and the
shape of a Remove task's snapshot payload).  Size hints are modelled as
naturals, the shape in which the download orchestrator consumes them. -/
structure BundleRec where
  name : String
  files : List String
  fileSizes : Option (List Nat)
  loaded : Bool
deriving Repr, DecidableEq

/-- Task types of dam.js (Task.TASK_TYPE_LOAD and Task.TASK_TYPE_REMOVE). -/
inductive TType where
  | load
  | remove
deriving Repr, DecidableEq, Inhabited

/-- A Task record: name and type identify it, the flags drive the scheduler,
and extra carries a Remove task's bundle snapshot. -/
structure TaskR where
  bundleName : String
  ttype : TType
  failed : Bool
  canceled : Bool
  retry : Bool
  extra : Option BundleRec
deriving Repr, DecidableEq, Inhabited

/-! Events.  _sendEvent queues an event and a single zero-delay timer flushes
the queue to every listener in FIFO order, so the delivered order is the
production order; the trace lists below model that delivered sequence. -/

/-- Payload kinds of bundle events. -/
inductive BKind where
  | loading
  | progress (done : ℚ)
  | loaded
  | error (msg : String)
deriving Repr, DecidableEq

/-- Events of dam.js: the two global events and the bundle events. -/
inductive Ev where
  | busy
  | notbusy
  | bundle (name : String) (kind : BKind)
deriving Repr, DecidableEq

/-- Keep only the global busy/notbusy events of a trace. -/
def globalEvents (evs : List Ev) : List Ev :=
  evs.filter (fun e => match e with
    | .bundle _ _ => false
    | _ => true)

/-! Task scheduler (_maybeAddTask, _cancelTask, _doTasks, kickStartTasks).
Task bodies (doIt) are asynchronous against external collaborators; the
scheduler embedding abstracts one body execution as an oracle keyed by the
task's bundle name and type. -/

/-- Outcome of one execution of a task body: the bundle events it emitted (the
scheduler trace tags them with the task's bundle name), whether the body
called its error helper (message and retry flag), and whether Task.abort ran
during the execution (abort is the only writer of the canceled flag). -/
structure ExecResult where
  bevents : List BKind
  errored : Option (String × Bool)
  canceledDuring : Bool

/-- Flag update a body execution leaves on its task: error sets failed and
retry; a quiet completion leaves them untouched. -/
def applyExecFlags (t : TaskR) (r : ExecResult) : TaskR :=
  { t with
    canceled := t.canceled || r.canceledDuring,
    failed := match r.errored with
      | some _ => true
      | none => t.failed,
    retry := match r.errored with
      | some q => q.2
      | none => t.retry }

/-- Number of live (non-canceled) non-failed tasks: the measure the drain loop
decreases, used as fuel. -/
def liveNonFailedCount (ts : List TaskR) : Nat :=
  (ts.filter (fun t => !t.canceled && !t.failed)).length

/-- The drain loop of _doTasks: strip canceled tasks, pick the first
non-failed task (the failed prefix is skipped), execute it, then remove it
unless it is canceled (cleaned next pass) or failed with retry (left in
place), and recur.  The busy flag is manager.doingTasks. -/
def drainLoop (exec : String → TType → ExecResult) :
    Nat → Bool → List TaskR → List Ev × Bool × List TaskR
  | 0, busy, ts => ([], busy, ts)
  | fuel + 1, busy, ts =>
    let ts1 := ts.filter (fun t => !t.canceled)
    match ts1.dropWhile (fun t => t.failed) with
    | [] => if busy then ([Ev.notbusy], false, ts1) else ([], busy, ts1)
    | t :: post =>
      let pre := ts1.takeWhile (fun t => t.failed)
      let busyEvs : List Ev := if busy then [] else [Ev.busy]
      let r := exec t.bundleName t.ttype
      let t' := applyExecFlags t r
      let ts2 :=
        if t'.canceled then pre ++ t' :: post
        else if t'.failed then
          (if t'.retry then pre ++ t' :: post else pre ++ post)
        else pre ++ post
      let rest := drainLoop exec fuel true ts2
      (busyEvs ++ (r.bevents.map (fun k => Ev.bundle t.bundleName k)) ++ rest.1,
       rest.2.1, rest.2.2)

/-- Scheduler state: the task list and manager.doingTasks. -/
structure Sched where
  tasks : List TaskR
  doingTasks : Bool
deriving Repr

/-- The function _doTasks of dam.js: reentrancy guard, then the drain loop
(whose fuel bound liveNonFailedCount + 1 is never reached, since each executed
task leaves the live non-failed set). -/
def _doTasks (exec : String → TType → ExecResult) (st : Sched) : List Ev × Sched :=
  if st.doingTasks then ([], st)
  else
    let r := drainLoop exec (liveNonFailedCount st.tasks + 1) st.doingTasks st.tasks
    (r.1, ⟨r.2.2, r.2.1⟩)

/-- Dedup test of _maybeAddTask: a live (non-canceled) task with this bundle
name and type already sits in the list. -/
def hasLiveTask (ts : List TaskR) (n : String) (ty : TType) : Bool :=
  ts.any (fun t => t.bundleName == n && t.ttype == ty && !t.canceled)

/-- List part of _maybeAddTask (push unless a live duplicate exists), shared
with the value-level addBundle model. -/
def maybeAddTaskList (ts : List TaskR) (n : String) (ty : TType) (extra : Option BundleRec) :
    List TaskR :=
  if hasLiveTask ts n ty then ts else ts ++ [⟨n, ty, false, false, false, extra⟩]

/-- List part of _cancelTask: Task.abort sets canceled on every matching task
(it never removes; removal is the drain loop's job).  The abort hook also
aborts an in-flight transfer and purges the task's pending events, modelled in
the download trace. -/
def cancelTasksIn (ts : List TaskR) (n : String) (ty : TType) : List TaskR :=
  ts.map (fun t =>
    if t.bundleName == n && t.ttype == ty then { t with canceled := true } else t)

/-- The function _maybeAddTask of dam.js: drop the request when a live
duplicate exists, else push a fresh task and run _doTasks. -/
def _maybeAddTask (exec : String → TType → ExecResult) (st : Sched) (n : String)
    (ty : TType) (extra : Option BundleRec) : List Ev × Sched :=
  if hasLiveTask st.tasks n ty then ([], st)
  else _doTasks exec { st with tasks := st.tasks ++ [⟨n, ty, false, false, false, extra⟩] }

/-- The function _cancelTask of dam.js over the scheduler state. -/
def _cancelTask (st : Sched) (n : String) (ty : TType) : Sched :=
  { st with tasks := cancelTasksIn st.tasks n ty }

/-- Re-arm step of kickStartTasks: a non-canceled failed task with retry gets
its failed and retry flags cleared. -/
def kickFlags (t : TaskR) : TaskR :=
  if !t.canceled && t.failed && t.retry then { t with failed := false, retry := false } else t

/-- The function kickStartTasks of dam.js (periodic retry timer body): re-arm
every eligible task, then run _doTasks. -/
def kickStartTasks (exec : String → TType → ExecResult) (st : Sched) : List Ev × Sched :=
  _doTasks exec { st with tasks := st.tasks.map kickFlags }

/-- Client-visible scheduler operations, for stating list invariants over
whole executions. -/
inductive SOp where
  | maybeAdd (n : String) (ty : TType)
  | cancel (n : String) (ty : TType)
  | drainNow
  | kick

/-- Apply one scheduler operation (events discarded). -/
def applySOp (exec : String → TType → ExecResult) (st : Sched) : SOp → Sched
  | .maybeAdd n ty => (_maybeAddTask exec st n ty none).2
  | .cancel n ty => _cancelTask st n ty
  | .drainNow => (_doTasks exec st).2
  | .kick => (kickStartTasks exec st).2

/-- Run a sequence of scheduler operations from the initial empty state. -/
def runSOps (exec : String → TType → ExecResult) (ops : List SOp) : Sched :=
  ops.foldl (applySOp exec) ⟨[], false⟩

/-- Number of live (non-canceled) tasks with a given bundle name and type. -/
def liveCountNT (ts : List TaskR) (n : String) (ty : TType) : Nat :=
  (ts.filter (fun t => t.bundleName == n && t.ttype == ty && !t.canceled)).length

/-- The scheduler dedup invariant: at most one live task per (name, type). -/
def SchedInv (st : Sched) : Prop :=
  ∀ n ty, liveCountNT st.tasks n ty ≤ 1

/-! Value-level addBundle (DAM.prototype.addBundle). -/

/-- Value-level DAM state: the registry, the last registry snapshot written to
localStorage, and the task list. -/
structure DamV where
  bundles : List (String × BundleRec)
  persisted : List (String × BundleRec)
  tasks : List TaskR
deriving Repr

/-- DAM.prototype.addBundle at value level: throw on a malformed bundle (the
guard runs before any mutation), silently return when the name exists, else
store a copy with loaded set to false, persist the registry, cancel any Remove
task for the name and request a Load task (the _doTasks run the push triggers
is modelled by the scheduler embedding). -/
def addBundleV (st : DamV) (b : JSBundleArg) : Except String DamV :=
  if _malformedBundle b then Except.error "Malformed bundle passed to addBundle"
  else
    match b with
    | .obj nameV filesV fileSizesV =>
      let bundleName := asStr nameV
      if st.bundles.any (fun p => p.1 == bundleName) then Except.ok st
      else
        let copy : BundleRec :=
          { name := bundleName
            files := (arrElems filesV).map asStr
            fileSizes :=
              if isUndef fileSizesV then none
              else some ((arrElems fileSizesV).map asNat)
            loaded := false }
        let bundles1 := st.bundles ++ [(bundleName, copy)]
        let tasks1 := cancelTasksIn st.tasks bundleName TType.remove
        let tasks2 := maybeAddTaskList tasks1 bundleName TType.load none
        Except.ok { bundles := bundles1, persisted := bundles1, tasks := tasks2 }
    | .nonObject => Except.error "Malformed bundle passed to addBundle"

/-! Removal orchestrator (_removeBundleFiles). -/

/-- State the removal scan reads and writes: the registry, the local URL map,
and the set of local file names present in the base directory. -/
structure RmState where
  bundles : List (String × BundleRec)
  localURLs : List (String × String)
  fsFiles : List String
deriving Repr, DecidableEq

/-- Reference scan of _removeBundleFiles: some registered bundle other than
the snapshot's name still lists this remote file. -/
def referencedByOther (bundles : List (String × BundleRec)) (snapName fileName : String) :
    Bool :=
  bundles.any (fun p => p.1 != snapName && p.2.files.contains fileName)

/-- Per-file loop of _removeBundleFiles: skip a file some other bundle still
references; otherwise delete its cached local file when present and drop its
local URL entry (a failed getFile leaves the map entry in place, mirroring the
error callback that just advances). -/
def rmLoop (snap : BundleRec) (st : RmState) : List String → RmState
  | [] => st
  | fileName :: rest =>
    if referencedByOther st.bundles snap.name fileName then rmLoop snap st rest
    else
      let localName := _localFileName fileName
      if st.fsFiles.contains localName then
        rmLoop snap
          { st with
            fsFiles := st.fsFiles.erase localName
            localURLs := _removeLocalURL st.localURLs fileName }
          rest
      else rmLoop snap st rest

/-- The function _removeBundleFiles of dam.js, over the removed bundle's
snapshot (task.extra).  The canceled flag is the task's flag, checked at each
iteration in the source; a constant flag models a task not canceled during
the scan (the claims below concern a running, non-canceled task). -/
def _removeBundleFiles (snap : BundleRec) (canceled : Bool) (st : RmState) : RmState :=
  if canceled then st else rmLoop snap st snap.files

/-! Download orchestrator (_downloadBundle, _downloadFail, the inner error
helper).  The filesystem probes and the transport are oracles: a per-file
action says whether the probe finds the file already cached, or a download
runs with a given list of progress ticks and a final result, or the local
file cannot be created.  Task.abort can flip the task's canceled flag at any
asynchronous boundary; the run threads a moment counter through every
canceled-flag check, and a cancellation moment m means the flag reads true at
every check from moment m on (cancellation is never undone). -/

/-- Phonegap FileTransferError.ABORT_ERR. -/
def ABORT_ERR : Nat := 4

/-- Phonegap FileTransferError.CONNECTION_ERR (the code the enforced-timeout
path of FileTransferWrapper fabricates, with a null http_status). -/
def CONNECTION_ERR : Nat := 3

/-- A transport error as _downloadFail reads it: the code and the optional
http_status (none models undefined or null, which are falsy). -/
structure TransferError where
  code : Nat
  http_status : Option Nat
deriving Repr, DecidableEq

/-- JSON.stringify of a transfer error, for the failure message. -/
def errJSON (e : TransferError) : String :=
  "\x7b\"code\":" ++ toString e.code ++
    (match e.http_status with
     | some s => ",\"http_status\":" ++ toString s
     | none => "") ++ "\x7d"

/-- Retry classification of _downloadFail: retry when http_status is falsy
(absent, null or 0) or equals 200; any other status (the permanent HTTP
errors) is not retried. -/
def errRetry (e : TransferError) : Bool :=
  match e.http_status with
  | none => true
  | some s => s == 0 || s == 200

/-- One transport progress tick (the onprogress event fields the source
reads). -/
structure Tick where
  lengthComputable : Bool
  loaded : Nat
  total : Nat
deriving Repr, DecidableEq

/-- Final transport result of one download. -/
inductive DlRes where
  | ok
  | fail (e : TransferError)
deriving Repr, DecidableEq

/-- Oracle outcome for one file of the bundle. -/
inductive FileAction where
  | cached
  | download (ticks : List Tick) (res : DlRes)
  | createFail (code : Nat)
deriving Repr, DecidableEq

/-- Context of one _downloadBundle run: the bundle fields it reads and the
optional moment from which the task's canceled flag reads true. -/
structure DlCtx where
  name : String
  files : List String
  fileSizes : Option (List Nat)
  cancelMoment : Option Nat
deriving Repr

/-- The task's canceled flag as read at moment t. -/
def canceledAt (c : Option Nat) (t : Nat) : Bool :=
  match c with
  | none => false
  | some m => decide (m ≤ t)

/-- Weight of file i toward progress: its size hint, or 1 without hints. -/
def fileWeight (ctx : DlCtx) (i : Nat) : ℚ :=
  match ctx.fileSizes with
  | some sizes => (sizes.getD i 0 : ℚ)
  | none => 1

/-- Total progress weight: the sum of the size hints, or the file count. -/
def totalSizeQ (ctx : DlCtx) : ℚ :=
  match ctx.fileSizes with
  | some sizes => (sizes.sum : ℚ)
  | none => (ctx.files.length : ℚ)

/-- Sum of the weights of files i, i+1, ..., i+r-1. -/
def restWeight (ctx : DlCtx) : Nat → Nat → ℚ
  | _, 0 => 0
  | i, r + 1 => fileWeight ctx i + restWeight ctx (i + 1) r

/-- Result of one _downloadBundle run: the moment-stamped events it emitted,
the task flags and message its error helper left, whether the bundle was
marked loaded (and the registry persisted), the final totalDoneSize, and the
remote files registered through _addLocalURL. -/
structure DlOutcome where
  events : List (Nat × Ev)
  failed : Bool
  retry : Bool
  errMsg : Option String
  loadedSet : Bool
  totalDone : ℚ
  urlAdds : List String
deriving Repr

/-- Prepend already-emitted events to a run's outcome. -/
def withEvents (evs : List (Nat × Ev)) (o : DlOutcome) : DlOutcome :=
  { o with events := evs ++ o.events }

/-- The inner error helper of _downloadBundle: mark the task failed with the
message and retry flag, and emit a bundle-error event only when retry is
false and the task is not canceled. -/
def dlErrorOut (ctx : DlCtx) (t : Nat) (done : ℚ) (urls : List String) (msg : String)
    (retry : Bool) : DlOutcome :=
  { events :=
      if !retry && !(canceledAt ctx.cancelMoment t) then
        [(t, Ev.bundle ctx.name (BKind.error msg))]
      else []
    failed := true
    retry := retry
    errMsg := some msg
    loadedSet := false
    totalDone := done
    urlAdds := urls }

/-- Progress events of the transport ticks of one in-flight file, starting at
moment tm: each computable tick emits the completed total plus the tick's
fractional contribution, unless the task is canceled at that moment. -/
def tickEvents (ctx : DlCtx) (w done : ℚ) : Nat → List Tick → List (Nat × Ev)
  | _, [] => []
  | tm, tk :: rest =>
    (if tk.lengthComputable && !(canceledAt ctx.cancelMoment tm) then
       [(tm, Ev.bundle ctx.name
          (BKind.progress ((done + ((tk.loaded : ℚ) / (tk.total : ℚ)) * w) / totalSizeQ ctx)))]
     else []) ++ tickEvents ctx w done (tm + 1) rest

/-- The per-file loop of _downloadBundle.  remaining counts the files still to
process (files.length - i); i is the file index, t the next check moment, done
the totalDoneSize accumulator, urls the _addLocalURL registrations so far.
Every loop entry first checks the canceled flag and routes to
error("canceled", false) when set. -/
def dlLoop (ctx : DlCtx) (acts : Nat → FileAction) :
    Nat → Nat → Nat → ℚ → List String → DlOutcome
  | remaining, i, t, done, urls =>
    if canceledAt ctx.cancelMoment t then dlErrorOut ctx t done urls "canceled" false
    else
      match remaining with
      | 0 =>
        { events := [(t, Ev.bundle ctx.name BKind.loaded)]
          failed := false
          retry := false
          errMsg := none
          loadedSet := true
          totalDone := done
          urlAdds := urls }
      | remaining' + 1 =>
        let w := fileWeight ctx i
        match acts i with
        | .cached =>
          if canceledAt ctx.cancelMoment (t + 1) then
            dlLoop ctx acts remaining' (i + 1) (t + 2) done urls
          else
            withEvents
              [(t + 1, Ev.bundle ctx.name (BKind.progress ((done + w) / totalSizeQ ctx)))]
              (dlLoop ctx acts remaining' (i + 1) (t + 2) (done + w) urls)
        | .download ticks res =>
          let tevs := tickEvents ctx w done (t + 1) ticks
          let t1 := t + 1 + ticks.length
          match res with
          | .ok =>
            let urls1 := urls ++ [ctx.files.getD i ""]
            if canceledAt ctx.cancelMoment t1 then
              withEvents tevs (dlLoop ctx acts remaining' (i + 1) (t1 + 1) done urls1)
            else
              withEvents
                (tevs ++ [(t1, Ev.bundle ctx.name (BKind.progress ((done + w) / totalSizeQ ctx)))])
                (dlLoop ctx acts remaining' (i + 1) (t1 + 1) (done + w) urls1)
          | .fail e =>
            if e.code == ABORT_ERR then
              withEvents tevs
                { events := []
                  failed := false
                  retry := false
                  errMsg := none
                  loadedSet := false
                  totalDone := done
                  urlAdds := urls }
            else
              withEvents tevs
                (dlErrorOut ctx t1 done urls ("FileTransferError: " ++ errJSON e) (errRetry e))
        | .createFail code =>
          dlErrorOut ctx (t + 1) done urls
            ("Unable to create file for download FileError code: " ++ toString code) false

/-- The function _downloadBundle of dam.js: emit the loading event (produced
before any canceled check), then run the per-file loop from index 0. -/
def _downloadBundle (ctx : DlCtx) (acts : Nat → FileAction) : DlOutcome :=
  withEvents [(0, Ev.bundle ctx.name BKind.loading)]
    (dlLoop ctx acts ctx.files.length 0 1 0 [])

/-- The done fractions of the progress events of a stamped trace, in order. -/
def progressFractions (evs : List (Nat × Ev)) : List ℚ :=
  evs.filterMap (fun p =>
    match p.2 with
    | Ev.bundle _ (BKind.progress d) => some d
    | _ => none)

/-- Validity of the transport ticks of one download, as the monotonicity
claims assume of the transport: bytes loaded never exceed the total, totals
are positive, and successive fractions do not decrease. -/
def TicksOK (ticks : List Tick) : Prop :=
  (∀ tk ∈ ticks, tk.loaded ≤ tk.total ∧ 0 < tk.total) ∧
    ticks.Pairwise (fun a b => ((a.loaded : ℚ) / (a.total : ℚ)) ≤ ((b.loaded : ℚ) / (b.total : ℚ)))

/-- Validity of one oracle action for the monotonicity claims. -/
def ActionOK : FileAction → Prop
  | .download ticks _ => TicksOK ticks
  | _ => True

/-- An action that completes its file without failing. -/
def ActionSucceeds : FileAction → Prop
  | .cached => True
  | .download _ res => res = DlRes.ok
  | .createFail _ => False

/-! Heap model for copy semantics (_copyBundle, addBundle, getBundle).
JavaScript objects and arrays are references into a heap; _copyBundle
allocates fresh arrays (slice) and a fresh record, which is what makes the
stored entry immune to client mutation.  Arrays of strings and of numbers and
bundle records live in three stores; a reference is an index. -/

/-- A bundle record on the heap: the name value, references to the files and
optional fileSizes arrays, and the optional loaded field (none models a record
without the property, as _copyBundle produces). -/
structure BundleObj where
  name : String
  filesRef : Nat
  fileSizesRef : Option Nat
  loaded : Option Bool
deriving Repr, DecidableEq, Inhabited

/-- The heap: string-array, number-array and bundle-record stores. -/
structure Heap where
  strArrs : List (List String)
  natArrs : List (List Nat)
  objs : List BundleObj
deriving Repr, DecidableEq

/-- Read a string array (out-of-store reads give the empty array). -/
def readStrArr (h : Heap) (r : Nat) : List String := h.strArrs.getD r []

/-- Read a number array. -/
def readNatArr (h : Heap) (r : Nat) : List Nat := h.natArrs.getD r []

/-- Read a bundle record. -/
def readObj (h : Heap) (r : Nat) : BundleObj := h.objs.getD r default

/-- Allocate a fresh string array; the reference is the store's old length. -/
def allocStrArr (h : Heap) (xs : List String) : Heap × Nat :=
  ({ h with strArrs := h.strArrs ++ [xs] }, h.strArrs.length)

/-- Allocate a fresh number array. -/
def allocNatArr (h : Heap) (xs : List Nat) : Heap × Nat :=
  ({ h with natArrs := h.natArrs ++ [xs] }, h.natArrs.length)

/-- Allocate a fresh bundle record. -/
def allocObj (h : Heap) (b : BundleObj) : Heap × Nat :=
  ({ h with objs := h.objs ++ [b] }, h.objs.length)

/-- Write the loaded field of a record (copy.loaded = false in addBundle). -/
def writeObjLoaded (h : Heap) (r : Nat) (v : Option Bool) : Heap :=
  { h with objs := h.objs.set r { readObj h r with loaded := v } }

/-- The function _copyBundle of dam.js over the heap: slice the files array,
slice the fileSizes array when present (the source tests its truthiness, and
every array is truthy), and build a fresh record carrying no loaded field. -/
def _copyBundle (h : Heap) (r : Nat) : Heap × Nat :=
  let b := readObj h r
  let p1 := allocStrArr h (readStrArr h b.filesRef)
  match b.fileSizesRef with
  | some sr =>
    let p2 := allocNatArr p1.1 (readNatArr p1.1 sr)
    allocObj p2.1 ⟨b.name, p1.2, some p2.2, none⟩
  | none => allocObj p1.1 ⟨b.name, p1.2, none, none⟩

/-- The registry this.bundles over the heap: names mapped to record refs. -/
structure RegistryH where
  bundles : List (String × Nat)
deriving Repr, DecidableEq

/-- hasOwnProperty test on the heap registry. -/
def hasBundle (st : RegistryH) (n : String) : Bool :=
  st.bundles.any (fun p => p.1 == n)

/-- Registry lookup giving the stored record's reference. -/
def lookupBundle (st : RegistryH) (n : String) : Option Nat :=
  match st.bundles.find? (fun p => p.1 == n) with
  | some p => some p.2
  | none => none

/-- DAM.prototype.addBundle over the heap: silently return when the name
exists, else store a defensive _copyBundle with loaded set to false.  The
malformed-bundle guard and the persistence and task operations that follow
are modelled by the value-level and scheduler embeddings; localStorage
receives a serialisation that aliases nothing on the heap. -/
def addBundleH (st : RegistryH) (h : Heap) (r : Nat) : RegistryH × Heap :=
  let bundleName := (readObj h r).name
  if hasBundle st bundleName then (st, h)
  else
    let p := _copyBundle h r
    let h2 := writeObjLoaded p.1 p.2 (some false)
    (⟨st.bundles ++ [(bundleName, p.2)]⟩, h2)

/-- DAM.prototype.getBundle over the heap: a fresh _copyBundle of the stored
record, or none for an unknown name. -/
def getBundleH (st : RegistryH) (h : Heap) (bundleName : String) : Heap × Option Nat :=
  match lookupBundle st bundleName with
  | some r =>
    let p := _copyBundle h r
    (p.1, some p.2)
  | none => (h, none)

/-- Client mutations of records and arrays (the writes JavaScript allows on a
bundle object a client holds). -/
inductive Mut where
  | setLoaded (r : Nat) (v : Option Bool)
  | setName (r : Nat) (v : String)
  | setFilesRef (r : Nat) (a : Nat)
  | setFileSizesRef (r : Nat) (a : Option Nat)
  | setStrElem (a i : Nat) (v : String)
  | setNatElem (a i : Nat) (v : Nat)

/-- Apply a client mutation to the heap. -/
def applyMut (h : Heap) : Mut → Heap
  | .setLoaded r v => { h with objs := h.objs.set r { readObj h r with loaded := v } }
  | .setName r v => { h with objs := h.objs.set r { readObj h r with name := v } }
  | .setFilesRef r a => { h with objs := h.objs.set r { readObj h r with filesRef := a } }
  | .setFileSizesRef r a =>
    { h with objs := h.objs.set r { readObj h r with fileSizesRef := a } }
  | .setStrElem a i v => { h with strArrs := h.strArrs.set a ((readStrArr h a).set i v) }
  | .setNatElem a i v => { h with natArrs := h.natArrs.set a ((readNatArr h a).set i v) }

/-- Whether a mutation touches the record at ref rec: one of its object
fields, or an element of one of the arrays it references. -/
def MutOnRecord (h : Heap) (rec : Nat) : Mut → Prop
  | .setLoaded r _ => r = rec
  | .setName r _ => r = rec
  | .setFilesRef r _ => r = rec
  | .setFileSizesRef r _ => r = rec
  | .setStrElem a _ _ => a = (readObj h rec).filesRef
  | .setNatElem a _ _ => some a = (readObj h rec).fileSizesRef

/-- The abstract value of a bundle record: name, files, size hints, loaded. -/
structure BVal where
  name : String
  files : List String
  fileSizes : Option (List Nat)
  loaded : Option Bool
deriving Repr, DecidableEq

/-- Read the abstract value of the record at ref r. -/
def readBundleValue (h : Heap) (r : Nat) : BVal :=
  let b := readObj h r
  ⟨b.name, readStrArr h b.filesRef, b.fileSizesRef.map (readNatArr h), b.loaded⟩

/-- Bundle-error events of a stamped trace, in order. -/
def errorEvents (evs : List (Nat × Ev)) : List Ev :=
  evs.filterMap (fun p =>
    match p.2 with
    | Ev.bundle nm (BKind.error m) => some (Ev.bundle nm (BKind.error m))
    | _ => none)

/-- Events of a scheduler trace that concern a given bundle name. -/
def eventsForBundle (evs : List Ev) (n : String) : List Ev :=
  evs.filter (fun e =>
    match e with
    | .bundle nm _ => nm == n
    | _ => false)

/-! Theorems.  Helper lemmas come first, then one theorem per claim with its
witness or counterexample. -/

/-- A localURL hit survives appending entries on the right. -/
theorem localURL_append_of_some (m m' : List (String × String)) (k : String) (u : String)
    (h : localURL m k = some u) : localURL (m ++ m') k = some u := by
  unfold localURL at h ⊢
  rcases hf : m.find? (fun p => p.1 == k) with _ | p
  · rw [hf] at h
    exact absurd h (by simp)
  · rw [List.find?_append, hf]
    rw [hf] at h
    simpa using h

/-- Claim C10: a local-cache mapping, once present, is never overwritten by a
subsequent _addLocalURL: an add for an existing key leaves the map unchanged,
the value localURL returns for a key is stable under any add, and localURL of
an unmapped identifier is absent. -/
theorem localURL_mapping_stable :
    (∀ m k v, hasKey m k = true → _addLocalURL m k v = m) ∧
    (∀ m k v k' u, localURL m k' = some u → localURL (_addLocalURL m k v) k' = some u) ∧
    (∀ m k, hasKey m k = false → localURL m k = none) := by
  refine ⟨fun m k v h => ?_, fun m k v k' u h => ?_, fun m k h => ?_⟩
  · unfold _addLocalURL
    rw [if_pos h]
  · unfold _addLocalURL
    by_cases hk : hasKey m k
    · rw [if_pos hk]; exact h
    · rw [if_neg hk]
      exact localURL_append_of_some m _ k' u h
  · unfold localURL
    unfold hasKey at h
    rcases hf : m.find? (fun p => p.1 == k) with _ | p
    · rw [hf]
    · have hp := List.find?_some hf
      have hmem := List.mem_of_find?_eq_some hf
      have : m.any (fun p => p.1 == k) = true := by
        simp only [List.any_eq_true]
        exact ⟨p, hmem, hp⟩
      rw [h] at this
      exact absurd this (by simp)

/-- Witness for C10 at concrete inputs. -/
theorem localURL_mapping_stable_witness :
    _addLocalURL [("a", "u")] "a" "v" = [("a", "u")] ∧
    localURL (_addLocalURL [("a", "u")] "a" "v") "a" = some "u" ∧
    localURL ([] : List (String × String)) "x" = none :=
  ⟨localURL_mapping_stable.1 [("a", "u")] "a" "v" (by decide),
   localURL_mapping_stable.2.1 [("a", "u")] "a" "v" "a" "u" (by decide),
   localURL_mapping_stable.2.2 [] "x" (by decide)⟩

/-- Elementwise string test of the files array matches the validation loop. -/
theorem allStrings_iff (fs : List JSVal) :
    fs.any (fun e => !(isString e)) = false ↔ ∀ e ∈ fs, ∃ s, e = JSVal.vStr s := by
  rw [← Bool.not_eq_true, List.any_eq_true]
  constructor
  · intro h e he
    cases e with
    | vStr s => exact ⟨s, rfl⟩
    | vNum n => exact absurd ⟨_, he, rfl⟩ h
    | vBool b => exact absurd ⟨_, he, rfl⟩ h
    | vArr es => exact absurd ⟨_, he, rfl⟩ h
    | vUndef => exact absurd ⟨_, he, rfl⟩ h
  · rintro h ⟨e, he, hbad⟩
    rcases h e he with ⟨s, rfl⟩
    exact absurd hbad (by simp [isString])

/-- Disjunctive normal form of the source's validation chain. -/
theorem malformed_obj_eq (n f z : JSVal) :
    _malformedBundle (.obj n f z) =
      (!(isString n) || !(_isArray f) ||
       (arrElems f).any (fun e => !(isString e)) ||
       (!(isUndef z) && (!(_isArray z) || (arrElems z).length != (arrElems f).length))) := by
  unfold _malformedBundle
  cases h1 : (!(isString n) || !(_isArray f)) <;>
    cases h2 : (arrElems f).any (fun e => !(isString e)) <;>
      cases h3 : (!(isUndef z) && (!(_isArray z) || (arrElems z).length != (arrElems f).length)) <;>
        simp [h1, h2, h3]

/-- The source's _malformedBundle test is the complement of the spec's
structural well-formedness. -/
theorem malformedBundle_iff_not_wellFormed (b : JSBundleArg) :
    _malformedBundle b = false ↔ WellFormedBundle b := by
  cases b with
  | nonObject =>
    constructor
    · intro h
      simp [_malformedBundle] at h
    · rintro (⟨nm, fs, heq, _⟩ | ⟨nm, fs, zs, heq, _⟩) <;> cases heq
  | obj n f z =>
    rw [malformed_obj_eq]
    constructor
    · intro h
      rw [Bool.or_eq_false_iff, Bool.or_eq_false_iff, Bool.or_eq_false_iff] at h
      obtain ⟨⟨⟨hA, hB⟩, hC⟩, hD⟩ := h
      obtain ⟨nm, rfl⟩ : ∃ nm, n = JSVal.vStr nm := by
        cases n <;> simp [isString] at hA ⊢
      obtain ⟨fs, rfl⟩ : ∃ fs, f = JSVal.vArr fs := by
        cases f <;> simp [_isArray] at hB ⊢
      have hall := (allStrings_iff fs).mp (by simpa [arrElems] using hC)
      rw [Bool.and_eq_false_iff] at hD
      rcases hD with hz | hzz
      · obtain rfl : z = JSVal.vUndef := by
          cases z <;> simp [isUndef] at hz ⊢
        exact Or.inl ⟨nm, fs, rfl, hall⟩
      · rw [Bool.or_eq_false_iff] at hzz
        obtain ⟨hz2, hlen2⟩ := hzz
        obtain ⟨zs, rfl⟩ : ∃ zs, z = JSVal.vArr zs := by
          cases z <;> simp [_isArray] at hz2 ⊢
        refine Or.inr ⟨nm, fs, zs, rfl, hall, ?_⟩
        simpa [arrElems] using hlen2
    · rintro (⟨nm, fs, heq, hall⟩ | ⟨nm, fs, zs, heq, hall, hlen⟩) <;> cases heq
      · have hall' : fs.any (fun e => !(isString e)) = false := (allStrings_iff fs).mpr hall
        simp only [arrElems]
        rw [hall']
        rfl
      · have hall' : fs.any (fun e => !(isString e)) = false := (allStrings_iff fs).mpr hall
        simp only [arrElems]
        rw [hall', hlen]
        simp [isString, _isArray, isUndef]

/-- Claim C5: a structurally malformed bundle (the source's validation is
exactly the complement of the spec's well-formedness, including the
length-mismatch example) makes addBundle throw before any mutation, so the
registry, task list and persisted snapshot are those of the unchanged input
state. -/
theorem addBundle_rejects_malformed :
    (∀ st b, ¬WellFormedBundle b →
      addBundleV st b = Except.error "Malformed bundle passed to addBundle") ∧
    (∀ b, _malformedBundle b = false ↔ WellFormedBundle b) ∧
    _malformedBundle
      (JSBundleArg.obj (JSVal.vStr "b1") (JSVal.vArr [JSVal.vStr "a"])
        (JSVal.vArr [JSVal.vStr "x", JSVal.vStr "y"])) = true := by
  refine ⟨fun st b hwf => ?_, malformedBundle_iff_not_wellFormed, by decide⟩
  have hm : _malformedBundle b = true := by
    by_contra hne
    exact hwf ((malformedBundle_iff_not_wellFormed b).mp (Bool.not_eq_true _ ▸ hne))
  unfold addBundleV
  rw [hm]
  rfl

/-- Witness for C5: the length-mismatch example is rejected with the state
untouched. -/
theorem addBundle_rejects_malformed_witness :
    addBundleV ⟨[], [], []⟩
        (JSBundleArg.obj (JSVal.vStr "b1") (JSVal.vArr [JSVal.vStr "a"])
          (JSVal.vArr [JSVal.vStr "x", JSVal.vStr "y"])) =
      Except.error "Malformed bundle passed to addBundle" :=
  addBundle_rejects_malformed.1 ⟨[], [], []⟩ _
    (fun hwf => absurd ((addBundle_rejects_malformed.2.1 _).mpr hwf) (by decide))

/-- Counterexample for C9: the identifier ".a" contains a dot that is present
and non-trailing (the claim would append the extension), yet _localFileName
appends nothing, because the source also drops extensions whose dot sits at
index 0. -/
theorem localFileName_claim_counterexample :
    lastDotPos ".a".data = some 0 ∧ ".a".data.length = 2 ∧
    _localFileName ".a" ≠ localFileNameClaim ".a" := by
  refine ⟨by decide, by decide, by decide⟩

/-- The source's local-name computation coincides with the amended wording. -/
theorem localFileName_eq_amended (uri : String) :
    _localFileName uri = localFileNameAmended uri := by
  unfold _localFileName localFileNameAmended lastIndexOfDot lastDotPos
  cases h : uri.data.reverse.findIdx? (fun c => c == '.') with
  | none => simp
  | some k =>
    have hk : k < uri.data.reverse.length :=
      (List.findIdx?_eq_some_iff_findIdx_eq.mp h).1
    rw [List.length_reverse] at hk
    have hlen : 1 ≤ uri.data.length := by omega
    dsimp only
    congr 1
    have hi : ((uri.data.length : Int) - 1 - k).toNat = uri.data.length - 1 - k := by omega
    by_cases hc : 1 ≤ uri.data.length - 1 - k ∧ uri.data.length - 1 - k + 1 < uri.data.length
    · rw [if_neg, if_pos hc, hi]
      omega
    · rw [if_pos, if_neg hc]
      omega

/-- Claim C9 (amended): the computed local name is a deterministic function of
the identifier, equal to the digest of the identifier with the extension from
the last dot appended exactly when that dot sits at index at least 1 and is
not the final character (a dot at index 0 or in final position yields the bare
digest). -/
theorem localFileName_deterministic_amended :
    (∀ a b : String, a = b → _localFileName a = _localFileName b) ∧
    (∀ uri, _localFileName uri = localFileNameAmended uri) :=
  ⟨fun _ _ hab => hab ▸ rfl, localFileName_eq_amended⟩

/-- Witness for C9 at concrete identifiers. -/
theorem localFileName_deterministic_amended_witness :
    _localFileName "a" = _localFileName "a" ∧
    _localFileName "x.png" = localFileNameAmended "x.png" :=
  ⟨localFileName_deterministic_amended.1 "a" "a" rfl,
   localFileName_deterministic_amended.2 "x.png"⟩

/-- Outcome flags are unchanged by prepending events. -/
theorem withEvents_failed (evs : List (Nat × Ev)) (o : DlOutcome) :
    (withEvents evs o).failed = o.failed := rfl

/-- Outcome retry flag is unchanged by prepending events. -/
theorem withEvents_retry (evs : List (Nat × Ev)) (o : DlOutcome) :
    (withEvents evs o).retry = o.retry := rfl

/-- Outcome message is unchanged by prepending events. -/
theorem withEvents_errMsg (evs : List (Nat × Ev)) (o : DlOutcome) :
    (withEvents evs o).errMsg = o.errMsg := rfl

/-- Events of an outcome with a prepended prefix. -/
theorem withEvents_events (evs : List (Nat × Ev)) (o : DlOutcome) :
    (withEvents evs o).events = evs ++ o.events := rfl

/-- Error events distribute over trace concatenation. -/
theorem errorEvents_append (a b : List (Nat × Ev)) :
    errorEvents (a ++ b) = errorEvents a ++ errorEvents b := by
  simp [errorEvents]

/-- Transport ticks emit progress events only, never error events. -/
theorem errorEvents_tickEvents (ctx : DlCtx) (w done : ℚ) (tm : Nat) (ticks : List Tick) :
    errorEvents (tickEvents ctx w done tm ticks) = [] := by
  induction ticks generalizing tm with
  | nil => rfl
  | cons tk rest ih =>
    rw [tickEvents, errorEvents_append, ih]
    by_cases hc : (tk.lengthComputable && !(canceledAt ctx.cancelMoment tm)) = true
    · rw [if_pos hc]
      rfl
    · rw [if_neg hc]
      rfl

/-- The canceled flag of a never-canceled task reads false. -/
theorem canceledAt_none (t : Nat) : canceledAt none t = false := rfl

/-- A canceled check against no cancellation takes the else branch. -/
theorem if_cancel_none {A : Type} (t : Nat) (a b : A) :
    (if canceledAt none t = true then a else b) = b := rfl

/-- Behaviour of the download loop when the first non-succeeding file fails in
transport: a canceled transfer (ABORT_ERR) completes quietly, any other error
marks the task failed with the transport message and the source's retry
classification, emitting a bundle-error event exactly when retry is false. -/
theorem dlLoop_first_fail (ctx : DlCtx) (acts : Nat → FileAction)
    (hnc : ctx.cancelMoment = none) :
    ∀ k remaining i t done urls, k < remaining →
      (∀ j, j < k → ActionSucceeds (acts (i + j))) →
      ∀ ticks e, acts (i + k) = FileAction.download ticks (DlRes.fail e) →
        ((e.code = ABORT_ERR →
            (dlLoop ctx acts remaining i t done urls).failed = false ∧
            (dlLoop ctx acts remaining i t done urls).errMsg = none ∧
            errorEvents (dlLoop ctx acts remaining i t done urls).events = []) ∧
          (e.code ≠ ABORT_ERR →
            (dlLoop ctx acts remaining i t done urls).failed = true ∧
            (dlLoop ctx acts remaining i t done urls).retry = errRetry e ∧
            (dlLoop ctx acts remaining i t done urls).errMsg =
              some ("FileTransferError: " ++ errJSON e) ∧
            errorEvents (dlLoop ctx acts remaining i t done urls).events =
              (if errRetry e then []
               else [Ev.bundle ctx.name
                  (BKind.error ("FileTransferError: " ++ errJSON e))]))) := by
  intro k
  induction k with
  | zero =>
    intro remaining i t done urls hk hpre ticks e hact
    rw [Nat.add_zero] at hact
    obtain ⟨remaining', rfl⟩ : ∃ r, remaining = r + 1 :=
      ⟨remaining - 1, by omega⟩
    rw [dlLoop]
    rw [hnc]
    simp only [if_cancel_none]
    rw [hact]
    dsimp only
    by_cases hab : (e.code == ABORT_ERR) = true
    · rw [if_pos hab]
      constructor
      · intro _
        refine ⟨rfl, rfl, ?_⟩
        rw [withEvents_events, errorEvents_append, errorEvents_tickEvents]
        rfl
      · intro hne
        exact absurd (by simpa using hab) hne
    · rw [if_neg hab]
      constructor
      · intro heq
        exact absurd (by simpa using heq) (by simpa using hab)
      · intro _
        refine ⟨rfl, rfl, rfl, ?_⟩
        rw [withEvents_events, errorEvents_append, errorEvents_tickEvents]
        rw [List.nil_append]
        unfold dlErrorOut errorEvents
        rw [hnc]
        cases hr : errRetry e
        · simp [canceledAt_none]
        · simp [canceledAt_none]
  | succ k ih =>
    intro remaining i t done urls hk hpre ticks e hact
    obtain ⟨remaining', rfl⟩ : ∃ r, remaining = r + 1 :=
      ⟨remaining - 1, by omega⟩
    have hsucc : ActionSucceeds (acts i) := by
      have := hpre 0 (by omega)
      simpa using this
    have hpre' : ∀ j, j < k → ActionSucceeds (acts (i + 1 + j)) := by
      intro j hj
      have := hpre (j + 1) (by omega)
      rwa [show i + (j + 1) = i + 1 + j by omega] at this
    have hact' : acts (i + 1 + k) = FileAction.download ticks (DlRes.fail e) := by
      rwa [show i + 1 + k = i + (k + 1) by omega]
    rw [dlLoop]
    rw [hnc]
    simp only [if_cancel_none]
    cases ha : acts i with
    | cached =>
      dsimp only
      have := ih remaining' (i + 1) (t + 2) (done + fileWeight ctx i) urls (by omega) hpre'
        ticks e hact'
      constructor
      · intro habort
        obtain ⟨h1, h2, h3⟩ := (this.1) habort
        refine ⟨by rw [withEvents_failed]; exact h1, by rw [withEvents_errMsg]; exact h2, ?_⟩
        rw [withEvents_events, errorEvents_append, h3]
        rfl
      · intro hne
        obtain ⟨h1, h2, h3, h4⟩ := (this.2) hne
        refine ⟨by rw [withEvents_failed]; exact h1, by rw [withEvents_retry]; exact h2,
          by rw [withEvents_errMsg]; exact h3, ?_⟩
        rw [withEvents_events, errorEvents_append, h4]
        rfl
    | download ticks0 res =>
      cases res with
      | ok =>
        dsimp only
        have := ih remaining' (i + 1) (t + 1 + ticks0.length + 1)
          (done + fileWeight ctx i) (urls ++ [ctx.files.getD i ""]) (by omega) hpre'
          ticks e hact'
        constructor
        · intro habort
          obtain ⟨h1, h2, h3⟩ := (this.1) habort
          refine ⟨by rw [withEvents_failed]; exact h1, by rw [withEvents_errMsg]; exact h2, ?_⟩
          rw [withEvents_events, errorEvents_append, h3, List.append_nil,
            errorEvents_append, errorEvents_tickEvents]
          rfl
        · intro hne
          obtain ⟨h1, h2, h3, h4⟩ := (this.2) hne
          refine ⟨by rw [withEvents_failed]; exact h1, by rw [withEvents_retry]; exact h2,
            by rw [withEvents_errMsg]; exact h3, ?_⟩
          rw [withEvents_events, errorEvents_append, h4,
            errorEvents_append, errorEvents_tickEvents]
          rfl
      | fail e0 =>
        rw [ha] at hsucc
        exact absurd hsucc (by simp [ActionSucceeds])
    | createFail code =>
      rw [ha] at hsucc
      exact absurd hsucc (by simp [ActionSucceeds])

/-- A re-armed failed task is executed again by the next drain: for a
single-task list the kick produces the busy event, the body's events, and the
not-busy event. -/
theorem kick_single_task_trace (exec : String → TType → ExecResult) (n : String) (ty : TType)
    (ex : Option BundleRec) :
    (kickStartTasks exec ⟨[⟨n, ty, true, false, true, ex⟩], false⟩).1 =
      Ev.busy :: ((exec n ty).bevents.map (fun k => Ev.bundle n k)) ++ [Ev.notbusy] := by
  rcases hres : exec n ty with ⟨bev, err, cd⟩
  rcases err with _ | ⟨msg, rt⟩ <;> cases cd <;> first
    | cases rt <;>
        simp [kickStartTasks, _doTasks, drainLoop, liveNonFailedCount, kickFlags, applyExecFlags,
          hres]
    | simp [kickStartTasks, _doTasks, drainLoop, liveNonFailedCount, kickFlags, applyExecFlags,
        hres]

/-- Counterexample for C2: a transport failure with code CONNECTION_ERR and
http_status 404 is not a canceled transfer, yet the source classifies it
non-retryable: the task fails with retry set to false and a bundle-error event
is emitted, contradicting the claim that every non-cancellation transport
failure is classified transient. -/
theorem downloadFail_claim_counterexample :
    (⟨CONNECTION_ERR, some 404⟩ : TransferError).code ≠ ABORT_ERR ∧
    errRetry ⟨CONNECTION_ERR, some 404⟩ = false ∧
    (_downloadBundle ⟨"b1", ["f1"], none, none⟩
        (fun _ => .download [] (.fail ⟨CONNECTION_ERR, some 404⟩))).failed = true ∧
    (_downloadBundle ⟨"b1", ["f1"], none, none⟩
        (fun _ => .download [] (.fail ⟨CONNECTION_ERR, some 404⟩))).retry = false ∧
    (_downloadBundle ⟨"b1", ["f1"], none, none⟩
        (fun _ => .download [] (.fail ⟨CONNECTION_ERR, some 404⟩))).events.map Prod.snd =
      [Ev.bundle "b1" BKind.loading,
       Ev.bundle "b1"
         (BKind.error "FileTransferError: \x7b\"code\":3,\"http_status\":404\x7d")] :=
  ⟨by decide, by decide, rfl, rfl, rfl⟩

/-- Claim C2 (amended): a canceled transfer (ABORT_ERR) completes the load
task quietly with no error; every other transport failure marks the task
failed with the transport error message, with retry set exactly when the
error's http_status is absent, 0 or 200 (permanent HTTP statuses are not
retried and surface a bundle-error event); the periodic retry timer re-arms a
failed retry-eligible task and the next drain executes it again. -/
theorem downloadFail_classification :
    (∀ e : TransferError,
      errRetry e = true ↔
        (e.http_status = none ∨ e.http_status = some 0 ∨ e.http_status = some 200)) ∧
    (∀ ctx acts k ticks e, ctx.cancelMoment = none → k < ctx.files.length →
      (∀ j, j < k → ActionSucceeds (acts j)) →
      acts k = FileAction.download ticks (DlRes.fail e) →
      ((e.code = ABORT_ERR →
          (_downloadBundle ctx acts).failed = false ∧
          (_downloadBundle ctx acts).errMsg = none ∧
          errorEvents (_downloadBundle ctx acts).events = []) ∧
        (e.code ≠ ABORT_ERR →
          (_downloadBundle ctx acts).failed = true ∧
          (_downloadBundle ctx acts).retry = errRetry e ∧
          (_downloadBundle ctx acts).errMsg = some ("FileTransferError: " ++ errJSON e) ∧
          errorEvents (_downloadBundle ctx acts).events =
            (if errRetry e then []
             else [Ev.bundle ctx.name
                (BKind.error ("FileTransferError: " ++ errJSON e))])))) ∧
    (∀ t : TaskR, t.canceled = false → t.failed = true → t.retry = true →
      kickFlags t = { t with failed := false, retry := false }) ∧
    (∀ exec n ty ex,
      (kickStartTasks exec ⟨[⟨n, ty, true, false, true, ex⟩], false⟩).1 =
        Ev.busy :: ((exec n ty).bevents.map (fun k => Ev.bundle n k)) ++ [Ev.notbusy]) := by
  refine ⟨fun e => ?_, fun ctx acts k ticks e hnc hk hpre hact => ?_,
    fun t h1 h2 h3 => ?_, kick_single_task_trace⟩
  · unfold errRetry
    rcases e.http_status with _ | s
    · simp
    · simp [Nat.beq_eq]
  · have hmain := dlLoop_first_fail ctx acts hnc k ctx.files.length 0 1 0 [] hk
      (by simpa using hpre) ticks e (by simpa using hact)
    unfold _downloadBundle
    constructor
    · intro habort
      obtain ⟨h1, h2, h3⟩ := hmain.1 habort
      exact ⟨h1, h2, by rw [withEvents_events, errorEvents_append, h3]; rfl⟩
    · intro hne
      obtain ⟨h1, h2, h3, h4⟩ := hmain.2 hne
      exact ⟨h1, h2, h3, by rw [withEvents_events, errorEvents_append, h4]; rfl⟩
  · unfold kickFlags
    rw [h1, h2, h3]
    simp

/-- Witness for C2 at concrete inputs: a 500 status is not retried, a timeout
error (CONNECTION_ERR with no status) is, the re-arm clears the flags, and a
concrete re-armed task is executed again by the drain. -/
theorem downloadFail_classification_witness :
    ((_downloadBundle ⟨"b1", ["f"], none, none⟩
        (fun _ => .download [] (.fail ⟨CONNECTION_ERR, some 500⟩))).failed = true ∧
      (_downloadBundle ⟨"b1", ["f"], none, none⟩
        (fun _ => .download [] (.fail ⟨CONNECTION_ERR, some 500⟩))).retry =
          errRetry ⟨CONNECTION_ERR, some 500⟩) ∧
    (errRetry ⟨CONNECTION_ERR, none⟩ = true ↔
      ((⟨CONNECTION_ERR, none⟩ : TransferError).http_status = none ∨
        (⟨CONNECTION_ERR, none⟩ : TransferError).http_status = some 0 ∨
        (⟨CONNECTION_ERR, none⟩ : TransferError).http_status = some 200)) ∧
    kickFlags ⟨"b1", TType.load, true, false, true, none⟩ =
      { bundleName := "b1", ttype := TType.load, failed := false, canceled := false,
        retry := false, extra := none } ∧
    (kickStartTasks (fun _ _ => ⟨[BKind.loading], some ("boom", true), false⟩)
        ⟨[⟨"b1", TType.load, true, false, true, none⟩], false⟩).1 =
      Ev.busy :: ((⟨[BKind.loading], some ("boom", true), false⟩ : ExecResult).bevents.map
        (fun k => Ev.bundle "b1" k)) ++ [Ev.notbusy] :=
  ⟨(fun h => ⟨(h (by decide)).1, (h (by decide)).2.1⟩)
      ((downloadFail_classification.2.1 ⟨"b1", ["f"], none, none⟩
        (fun _ => .download [] (.fail ⟨CONNECTION_ERR, some 500⟩)) 0 []
        ⟨CONNECTION_ERR, some 500⟩ rfl (by decide) (fun j hj => absurd hj (by omega)) rfl).2),
   downloadFail_classification.1 ⟨CONNECTION_ERR, none⟩,
   downloadFail_classification.2.2.1 ⟨"b1", TType.load, true, false, true, none⟩ rfl rfl rfl,
   downloadFail_classification.2.2.2 (fun _ _ => ⟨[BKind.loading], some ("boom", true), false⟩)
     "b1" TType.load none⟩


theorem contains_true_iff (l : List String) (a : String) : l.contains a = true ↔ a ∈ l := by
  rw [List.contains_iff_exists_mem_beq]
  simp

theorem contains_erase_of_ne (l : List String) (a b : String) (h : a ≠ b) :
    (l.erase a).contains b = l.contains b := by
  have hiff : b ∈ l.erase a ↔ b ∈ l := List.mem_erase_of_ne (fun he => h he.symm)
  cases hc : l.contains b
  · rw [← Bool.not_eq_true, contains_true_iff] at hc ⊢
    exact fun hmem => hc (hiff.mp hmem)
  · rw [contains_true_iff] at hc ⊢
    exact hiff.mpr hc

theorem contains_erase_self_of_nodup (l : List String) (a : String) (hnd : l.Nodup) :
    (l.erase a).contains a = false := by
  rw [← Bool.not_eq_true, contains_true_iff]
  intro hmem
  exact absurd rfl ((hnd.mem_erase_iff.mp hmem).1)

theorem contains_false_of_sublist {l' l : List String} (hs : List.Sublist l' l) {a : String}
    (h : l.contains a = false) : l'.contains a = false := by
  rw [← Bool.not_eq_true, contains_true_iff] at h ⊢
  exact fun hmem => h (hs.subset hmem)

theorem localURL_cons (p : String × String) (rest : List (String × String)) (f : String) :
    localURL (p :: rest) f = if p.1 == f then some p.2 else localURL rest f := by
  by_cases hpf : (p.1 == f) = true <;> simp [localURL, List.find?_cons, hpf]

theorem eraseP_key_cons (p : String × String) (rest : List (String × String)) (g : String) :
    (p :: rest).eraseP (fun q => q.1 == g) =
      if p.1 == g then rest else p :: rest.eraseP (fun q => q.1 == g) := by
  by_cases hpg : (p.1 == g) = true <;> simp [List.eraseP_cons, hpg]

theorem localURL_eq_none_iff (m : List (String × String)) (f : String) :
    localURL m f = none ↔ ∀ p ∈ m, (p.1 == f) = false := by
  induction m with
  | nil => simp [localURL]
  | cons p rest ih =>
    rw [localURL_cons]
    by_cases hpf : (p.1 == f) = true
    · rw [if_pos hpf]
      constructor
      · intro h
        exact Option.noConfusion h
      · intro h
        have := h p (List.mem_cons_self p rest)
        rw [this] at hpf
        cases hpf
    · rw [if_neg hpf, ih]
      simp only [List.mem_cons]
      constructor
      · intro h q hq
        rcases hq with rfl | hq
        · simpa using hpf
        · exact h q hq
      · intro h q hq
        exact h q (Or.inr hq)

theorem localURL_none_of_sublist {m' m : List (String × String)} (hs : List.Sublist m' m)
    {f : String} (h : localURL m f = none) : localURL m' f = none := by
  rw [localURL_eq_none_iff] at h ⊢
  exact fun p hp => h p (hs.subset hp)

theorem removeLocalURL_sublist (m : List (String × String)) (k : String) :
    List.Sublist (_removeLocalURL m k) m := by
  unfold _removeLocalURL
  by_cases hk : hasKey m k
  · rw [if_pos hk]
    exact List.eraseP_sublist m
  · rw [if_neg hk]

theorem localURL_eraseP_ne (g f : String) (hne : g ≠ f) :
    ∀ m : List (String × String),
      localURL (m.eraseP (fun p => p.1 == g)) f = localURL m f := by
  intro m
  induction m with
  | nil => rfl
  | cons p rest ih =>
    rw [eraseP_key_cons]
    by_cases hpg : (p.1 == g) = true
    · rw [if_pos hpg]
      have hpf : (p.1 == f) = false := by
        rw [beq_iff_eq] at hpg
        simp [hpg, hne]
      rw [localURL_cons, hpf]
      simp
    · rw [if_neg hpg, localURL_cons, localURL_cons, ih]

theorem localURL_removeLocalURL_ne (m : List (String × String)) (g f : String) (hne : g ≠ f) :
    localURL (_removeLocalURL m g) f = localURL m f := by
  unfold _removeLocalURL
  by_cases hk : hasKey m g
  · rw [if_pos hk]
    exact localURL_eraseP_ne g f hne m
  · rw [if_neg hk]

theorem localURL_eraseP_self (f : String) :
    ∀ m : List (String × String), (m.map Prod.fst).Nodup →
      localURL (m.eraseP (fun p => p.1 == f)) f = none := by
  intro m
  induction m with
  | nil => intro _; rfl
  | cons p rest ih =>
    intro hnd
    rw [List.map_cons] at hnd
    have hnd' := hnd.of_cons
    rw [eraseP_key_cons]
    by_cases hpf : (p.1 == f) = true
    · rw [if_pos hpf]
      rw [beq_iff_eq] at hpf
      rw [localURL_eq_none_iff]
      intro q hq
      have hqp : p.1 ≠ q.1 :=
        List.rel_of_pairwise_cons hnd (List.mem_map_of_mem Prod.fst hq)
      rw [hpf] at hqp
      rw [beq_eq_false_iff_ne]
      exact fun he => hqp he.symm
    · rw [if_neg hpf, localURL_cons]
      rw [if_neg hpf]
      exact ih hnd'

theorem localURL_removeLocalURL_self (m : List (String × String)) (f : String)
    (hnd : (m.map Prod.fst).Nodup) :
    localURL (_removeLocalURL m f) f = none := by
  unfold _removeLocalURL
  by_cases hk : hasKey m f
  · rw [if_pos hk]
    exact localURL_eraseP_self f m hnd
  · rw [if_neg hk]
    rw [localURL_eq_none_iff]
    intro p hp
    unfold hasKey at hk
    rw [List.any_eq_true] at hk
    have : ¬((p.1 == f) = true) := fun hbeq => hk ⟨p, hp, hbeq⟩
    simpa using this



theorem rmLoop_fs_sublist (snap : BundleRec) :
    ∀ (fl : List String) (st : RmState),
      List.Sublist (rmLoop snap st fl).fsFiles st.fsFiles := by
  intro fl
  induction fl with
  | nil => intro st; exact List.Sublist.refl _
  | cons g rest ih =>
    intro st
    rw [rmLoop]
    by_cases h1 : referencedByOther st.bundles snap.name g = true
    · rw [if_pos h1]
      exact ih st
    · rw [if_neg h1]
      by_cases h2 : st.fsFiles.contains (_localFileName g) = true
      · rw [if_pos h2]
        exact List.Sublist.trans (ih _) (List.erase_sublist _ _)
      · rw [if_neg h2]
        exact ih st

theorem rmLoop_urls_sublist (snap : BundleRec) :
    ∀ (fl : List String) (st : RmState),
      List.Sublist (rmLoop snap st fl).localURLs st.localURLs := by
  intro fl
  induction fl with
  | nil => intro st; exact List.Sublist.refl _
  | cons g rest ih =>
    intro st
    rw [rmLoop]
    by_cases h1 : referencedByOther st.bundles snap.name g = true
    · rw [if_pos h1]
      exact ih st
    · rw [if_neg h1]
      by_cases h2 : st.fsFiles.contains (_localFileName g) = true
      · rw [if_pos h2]
        exact List.Sublist.trans (ih _) (removeLocalURL_sublist _ _)
      · rw [if_neg h2]
        exact ih st

theorem rmLoop_keeps_url_of_referenced (snap : BundleRec) (f : String) :
    ∀ (fl : List String) (st : RmState),
      referencedByOther st.bundles snap.name f = true →
      localURL (rmLoop snap st fl).localURLs f = localURL st.localURLs f := by
  intro fl
  induction fl with
  | nil => intro st _; rfl
  | cons g rest ih =>
    intro st href
    rw [rmLoop]
    by_cases h1 : referencedByOther st.bundles snap.name g = true
    · rw [if_pos h1]
      exact ih st href
    · rw [if_neg h1]
      have hgf : g ≠ f := fun he => h1 (he ▸ href)
      by_cases h2 : st.fsFiles.contains (_localFileName g) = true
      · rw [if_pos h2]
        refine Eq.trans (ih _ href) ?_
        exact localURL_removeLocalURL_ne _ g f hgf
      · rw [if_neg h2]
        exact ih st href

theorem rmLoop_keeps_fs_of_referenced (snap : BundleRec) (f : String) :
    ∀ (fl : List String) (st : RmState),
      referencedByOther st.bundles snap.name f = true →
      (∀ g ∈ fl, _localFileName g = _localFileName f → g = f) →
      (rmLoop snap st fl).fsFiles.contains (_localFileName f) =
        st.fsFiles.contains (_localFileName f) := by
  intro fl
  induction fl with
  | nil => intro st _ _; rfl
  | cons g rest ih =>
    intro st href hcol
    have hcol' : ∀ x ∈ rest, _localFileName x = _localFileName f → x = f :=
      fun x hx => hcol x (List.mem_cons_of_mem g hx)
    rw [rmLoop]
    by_cases h1 : referencedByOther st.bundles snap.name g = true
    · rw [if_pos h1]
      exact ih st href hcol'
    · rw [if_neg h1]
      have hgf : g ≠ f := fun he => h1 (he ▸ href)
      have hlfn : _localFileName g ≠ _localFileName f :=
        fun he => hgf (hcol g (List.mem_cons_self g rest) he)
      by_cases h2 : st.fsFiles.contains (_localFileName g) = true
      · rw [if_pos h2]
        refine Eq.trans (ih _ href hcol') ?_
        exact contains_erase_of_ne _ _ _ hlfn
      · rw [if_neg h2]
        exact ih st href hcol'

theorem rmLoop_deletes_unreferenced (snap : BundleRec) (f : String) :
    ∀ (fl : List String) (st : RmState),
      referencedByOther st.bundles snap.name f = false →
      f ∈ fl →
      st.fsFiles.contains (_localFileName f) = true →
      st.fsFiles.Nodup →
      (st.localURLs.map Prod.fst).Nodup →
      (∀ g ∈ fl, _localFileName g = _localFileName f → g = f) →
      (rmLoop snap st fl).fsFiles.contains (_localFileName f) = false ∧
      localURL (rmLoop snap st fl).localURLs f = none := by
  intro fl
  induction fl with
  | nil =>
    intro st _ hmem
    exact absurd hmem (List.not_mem_nil f)
  | cons g rest ih =>
    intro st href hmem hcont hndfs hndu hcol
    rw [rmLoop]
    by_cases hgf : g = f
    · subst hgf
      rw [if_neg (by rw [href]; exact Bool.false_ne_true)]
      rw [if_pos hcont]
      constructor
      · exact contains_false_of_sublist (rmLoop_fs_sublist snap rest _)
          (contains_erase_self_of_nodup _ _ hndfs)
      · exact localURL_none_of_sublist (rmLoop_urls_sublist snap rest _)
          (localURL_removeLocalURL_self _ g hndu)
    · have hmem' : f ∈ rest := by
        rcases List.mem_cons.mp hmem with he | hr
        · exact absurd he.symm hgf
        · exact hr
      have hcol' : ∀ x ∈ rest, _localFileName x = _localFileName f → x = f :=
        fun x hx => hcol x (List.mem_cons_of_mem g hx)
      have hlfn : _localFileName g ≠ _localFileName f :=
        fun he => hgf (hcol g (List.mem_cons_self g rest) he)
      by_cases h1 : referencedByOther st.bundles snap.name g = true
      · rw [if_pos h1]
        exact ih st href hmem' hcont hndfs hndu hcol'
      · rw [if_neg h1]
        by_cases h2 : st.fsFiles.contains (_localFileName g) = true
        · rw [if_pos h2]
          refine ih _ href hmem' ?_ ?_ ?_ hcol'
          · rw [contains_erase_of_ne _ _ _ hlfn]
            exact hcont
          · exact (List.erase_sublist _ _).nodup hndfs
          · exact ((removeLocalURL_sublist _ _).map Prod.fst).nodup hndu
        · rw [if_neg h2]
          exact ih st href hmem' hcont hndfs hndu hcol'



/-- Claim C3: during a Remove task's scan over the removed bundle's snapshot,
a file whose remote identifier some other currently registered bundle still
lists is skipped — its local URL entry is untouched and (absent local-name
collisions among the snapshot's files) its cached local file stays; a file no
other registered bundle references has its cached local file deleted and its
local URL entry dropped (assuming the cached file is present, the filesystem
set and URL keys are duplicate-free, and no other snapshot file collides on
the computed local name). -/
theorem removeBundleFiles_refcount :
    (∀ snap st (f : String), referencedByOther st.bundles snap.name f = true →
      localURL (_removeBundleFiles snap false st).localURLs f = localURL st.localURLs f ∧
      ((∀ g ∈ snap.files, _localFileName g = _localFileName f → g = f) →
        (_removeBundleFiles snap false st).fsFiles.contains (_localFileName f) =
          st.fsFiles.contains (_localFileName f))) ∧
    (∀ snap st (f : String), f ∈ snap.files →
      referencedByOther st.bundles snap.name f = false →
      st.fsFiles.contains (_localFileName f) = true →
      st.fsFiles.Nodup →
      (st.localURLs.map Prod.fst).Nodup →
      (∀ g ∈ snap.files, _localFileName g = _localFileName f → g = f) →
      (_removeBundleFiles snap false st).fsFiles.contains (_localFileName f) = false ∧
      localURL (_removeBundleFiles snap false st).localURLs f = none) := by
  constructor
  · intro snap st f href
    exact ⟨rmLoop_keeps_url_of_referenced snap f snap.files st href,
      fun hcol => rmLoop_keeps_fs_of_referenced snap f snap.files st href hcol⟩
  · intro snap st f hmem href hcont hndfs hndu hcol
    exact rmLoop_deletes_unreferenced snap f snap.files st href hmem hcont hndfs hndu hcol

/-- Witness for C3: bundles gone and other share file b; removing gone keeps
b's cached file and URL entry, and deletes unshared file a's cached file and
URL entry. -/
theorem removeBundleFiles_refcount_witness :
    localURL (_removeBundleFiles ⟨"gone", ["a", "b"], none, false⟩ false
        ⟨[("other", ⟨"other", ["b"], none, true⟩)], [("a", "ua"), ("b", "ub")],
          [_localFileName "a", _localFileName "b"]⟩).localURLs "b" =
      localURL [("a", "ua"), ("b", "ub")] "b" ∧
    (_removeBundleFiles ⟨"gone", ["a", "b"], none, false⟩ false
        ⟨[("other", ⟨"other", ["b"], none, true⟩)], [("a", "ua"), ("b", "ub")],
          [_localFileName "a", _localFileName "b"]⟩).fsFiles.contains (_localFileName "b") =
      ([_localFileName "a", _localFileName "b"].contains (_localFileName "b")) ∧
    (_removeBundleFiles ⟨"gone", ["a", "b"], none, false⟩ false
        ⟨[("other", ⟨"other", ["b"], none, true⟩)], [("a", "ua"), ("b", "ub")],
          [_localFileName "a", _localFileName "b"]⟩).fsFiles.contains (_localFileName "a") =
      false ∧
    localURL (_removeBundleFiles ⟨"gone", ["a", "b"], none, false⟩ false
        ⟨[("other", ⟨"other", ["b"], none, true⟩)], [("a", "ua"), ("b", "ub")],
          [_localFileName "a", _localFileName "b"]⟩).localURLs "a" = none := by
  refine ⟨(removeBundleFiles_refcount.1 ⟨"gone", ["a", "b"], none, false⟩
      ⟨[("other", ⟨"other", ["b"], none, true⟩)], [("a", "ua"), ("b", "ub")],
        [_localFileName "a", _localFileName "b"]⟩ "b" (by decide)).1,
    (removeBundleFiles_refcount.1 ⟨"gone", ["a", "b"], none, false⟩
      ⟨[("other", ⟨"other", ["b"], none, true⟩)], [("a", "ua"), ("b", "ub")],
        [_localFileName "a", _localFileName "b"]⟩ "b" (by decide)).2 (by decide),
    (removeBundleFiles_refcount.2 ⟨"gone", ["a", "b"], none, false⟩
      ⟨[("other", ⟨"other", ["b"], none, true⟩)], [("a", "ua"), ("b", "ub")],
        [_localFileName "a", _localFileName "b"]⟩ "a" (by decide) (by decide) (by decide)
      (by decide) (by decide) (by decide)).1,
    (removeBundleFiles_refcount.2 ⟨"gone", ["a", "b"], none, false⟩
      ⟨[("other", ⟨"other", ["b"], none, true⟩)], [("a", "ua"), ("b", "ub")],
        [_localFileName "a", _localFileName "b"]⟩ "a" (by decide) (by decide) (by decide)
      (by decide) (by decide) (by decide)).2⟩


theorem fileWeight_nonneg (ctx : DlCtx) (i : Nat) : 0 ≤ fileWeight ctx i := by
  rcases hs : ctx.fileSizes with _ | szs <;> simp [fileWeight, hs]

theorem totalSizeQ_nonneg (ctx : DlCtx) : 0 ≤ totalSizeQ ctx := by
  unfold totalSizeQ
  rcases hs : ctx.fileSizes with _ | szs
  · exact Nat.cast_nonneg _
  · exact Nat.cast_nonneg _

theorem restWeight_nonneg (ctx : DlCtx) : ∀ (r i : Nat), 0 ≤ restWeight ctx i r := by
  intro r
  induction r with
  | zero => intro i; exact le_refl 0
  | succ r ih =>
    intro i
    rw [restWeight]
    exact add_nonneg (fileWeight_nonneg ctx i) (ih (i + 1))

theorem divT_mono (T : ℚ) (hT : 0 ≤ T) {a b : ℚ} (h : a ≤ b) : a / T ≤ b / T := by
  rcases hT.eq_or_lt with heq | hpos
  · rw [← heq]
    simp
  · exact (div_le_div_iff_of_pos_right hpos).mpr h

theorem divT_le_one (T : ℚ) (hT : 0 ≤ T) {a : ℚ} (h : a ≤ T) : a / T ≤ 1 := by
  rcases hT.eq_or_lt with heq | hpos
  · rw [← heq]
    simp
  · exact (div_le_one hpos).mpr h

theorem ratio_nonneg (tk : Tick) : 0 ≤ (tk.loaded : ℚ) / (tk.total : ℚ) :=
  div_nonneg (Nat.cast_nonneg _) (Nat.cast_nonneg _)

theorem ratio_le_one (tk : Tick) (h : tk.loaded ≤ tk.total) :
    (tk.loaded : ℚ) / (tk.total : ℚ) ≤ 1 := by
  by_cases ht : tk.total = 0
  · simp [ht]
  · exact divT_le_one _ (Nat.cast_nonneg _) (Nat.cast_le.mpr h)

theorem progressFractions_append (a b : List (Nat × Ev)) :
    progressFractions (a ++ b) = progressFractions a ++ progressFractions b := by
  simp [progressFractions]

theorem progressFractions_dlErrorOut (ctx : DlCtx) (t : Nat) (done : ℚ) (urls : List String)
    (msg : String) (retry : Bool) :
    progressFractions (dlErrorOut ctx t done urls msg retry).events = [] := by
  unfold dlErrorOut
  by_cases hc : (!retry && !(canceledAt ctx.cancelMoment t)) = true
  · rw [if_pos hc]
    rfl
  · rw [if_neg hc]
    rfl

theorem mem_progressFractions_tickEvents (ctx : DlCtx) (w done : ℚ) :
    ∀ (ticks : List Tick) (tm : Nat) (q : ℚ),
      q ∈ progressFractions (tickEvents ctx w done tm ticks) →
      ∃ tk ∈ ticks, q = (done + ((tk.loaded : ℚ) / (tk.total : ℚ)) * w) / totalSizeQ ctx := by
  intro ticks
  induction ticks with
  | nil => intro tm q hq; exact absurd hq (by simp [tickEvents, progressFractions])
  | cons tk rest ih =>
    intro tm q hq
    rw [tickEvents, progressFractions_append] at hq
    rcases List.mem_append.mp hq with hq | hq
    · by_cases hc : (tk.lengthComputable && !(canceledAt ctx.cancelMoment tm)) = true
      · rw [if_pos hc] at hq
        have hqe : q = (done + ((tk.loaded : ℚ) / (tk.total : ℚ)) * w) / totalSizeQ ctx := by
          simpa [progressFractions] using hq
        exact ⟨tk, List.mem_cons_self tk rest, hqe⟩
      · rw [if_neg hc] at hq
        exact absurd hq (by simp [progressFractions])
    · obtain ⟨tk', htk', hq'⟩ := ih (tm + 1) q hq
      exact ⟨tk', List.mem_cons_of_mem tk htk', hq'⟩



theorem canceledAt_mono {c : Option Nat} {t t' : Nat} (h : canceledAt c t = true)
    (htt : t ≤ t') : canceledAt c t' = true := by
  rcases c with _ | m
  · exact absurd h (by simp [canceledAt])
  · simp [canceledAt] at h ⊢
    omega

theorem dlLoop_events_of_canceled (ctx : DlCtx) (acts : Nat → FileAction)
    (remaining i t : Nat) (done : ℚ) (urls : List String)
    (h : canceledAt ctx.cancelMoment t = true) :
    (dlLoop ctx acts remaining i t done urls).events = [] := by
  rw [dlLoop.eq_def]
  dsimp only
  rw [if_pos h]
  unfold dlErrorOut
  simp [h]

theorem pairwise_tickEvents (ctx : DlCtx) (w done : ℚ) (hw : 0 ≤ w)
    (hT : 0 ≤ totalSizeQ ctx) :
    ∀ (ticks : List Tick) (tm : Nat),
      ticks.Pairwise (fun a b =>
        ((a.loaded : ℚ) / (a.total : ℚ)) ≤ ((b.loaded : ℚ) / (b.total : ℚ))) →
      (progressFractions (tickEvents ctx w done tm ticks)).Pairwise (· ≤ ·) := by
  intro ticks
  induction ticks with
  | nil =>
    intro tm _
    simp [tickEvents, progressFractions]
  | cons tk rest ih =>
    intro tm hpw
    obtain ⟨hrel, hpw'⟩ := List.pairwise_cons.mp hpw
    rw [tickEvents, progressFractions_append, List.pairwise_append]
    refine ⟨?_, ih (tm + 1) hpw', ?_⟩
    · by_cases hc : (tk.lengthComputable && !(canceledAt ctx.cancelMoment tm)) = true
      · rw [if_pos hc]
        simp [progressFractions]
      · rw [if_neg hc]
        simp [progressFractions]
    · intro a ha b hb
      by_cases hc : (tk.lengthComputable && !(canceledAt ctx.cancelMoment tm)) = true
      · rw [if_pos hc] at ha
        have ha' : a = (done + ((tk.loaded : ℚ) / (tk.total : ℚ)) * w) / totalSizeQ ctx := by
          simpa [progressFractions] using ha
        obtain ⟨tk', htk', rfl⟩ := mem_progressFractions_tickEvents ctx w done rest (tm + 1) b hb
        rw [ha']
        apply divT_mono _ hT
        have hr := hrel tk' htk'
        have := mul_le_mul_of_nonneg_right hr hw
        linarith
      · rw [if_neg hc] at ha
        exact absurd ha (by simp [progressFractions])

theorem tick_frac_bounds (ctx : DlCtx) (w done : ℚ) (hw : 0 ≤ w) (hd0 : 0 ≤ done)
    (hT : 0 ≤ totalSizeQ ctx) (hup : done + w ≤ totalSizeQ ctx) (ticks : List Tick)
    (htok : TicksOK ticks) (tm : Nat) :
    ∀ q ∈ progressFractions (tickEvents ctx w done tm ticks),
      done / totalSizeQ ctx ≤ q ∧ q ≤ 1 := by
  intro q hq
  obtain ⟨tk, htk, rfl⟩ := mem_progressFractions_tickEvents ctx w done ticks tm q hq
  have hrl := htok.1 tk htk
  have h0r := ratio_nonneg tk
  have h1r := ratio_le_one tk hrl.1
  have hrw0 : 0 ≤ ((tk.loaded : ℚ) / (tk.total : ℚ)) * w := mul_nonneg h0r hw
  have hrww : ((tk.loaded : ℚ) / (tk.total : ℚ)) * w ≤ w := by
    have := mul_le_mul_of_nonneg_right h1r hw
    linarith
  constructor
  · apply divT_mono _ hT
    linarith
  · apply divT_le_one _ hT
    linarith



theorem progressFractions_dlLoop_zero (ctx : DlCtx) (acts : Nat → FileAction)
    (i t : Nat) (done : ℚ) (urls : List String) :
    progressFractions (dlLoop ctx acts 0 i t done urls).events = [] := by
  rw [dlLoop]
  by_cases hc : canceledAt ctx.cancelMoment t = true
  · rw [if_pos hc, progressFractions_dlErrorOut]
  · rw [if_neg hc]
    rfl

theorem dlLoop_progress_mono (ctx : DlCtx) (acts : Nat → FileAction)
    (hok : ∀ i, ActionOK (acts i)) :
    ∀ remaining i t done urls,
      0 ≤ done →
      done + restWeight ctx i remaining ≤ totalSizeQ ctx →
      ((∀ q ∈ progressFractions (dlLoop ctx acts remaining i t done urls).events,
          done / totalSizeQ ctx ≤ q ∧ q ≤ 1) ∧
        (progressFractions (dlLoop ctx acts remaining i t done urls).events).Pairwise
          (· ≤ ·)) := by
  intro remaining
  induction remaining with
  | zero =>
    intro i t done urls _ _
    rw [progressFractions_dlLoop_zero]
    exact ⟨fun q hq => absurd hq (List.not_mem_nil q), List.Pairwise.nil⟩
  | succ remaining' ih =>
    intro i t done urls hd0 hbound
    have hT := totalSizeQ_nonneg ctx
    have hw := fileWeight_nonneg ctx i
    have hrw := restWeight_nonneg ctx remaining' (i + 1)
    have hbound' : done + fileWeight ctx i + restWeight ctx (i + 1) remaining' ≤
        totalSizeQ ctx := by
      rw [restWeight] at hbound
      linarith
    have hup : done + fileWeight ctx i ≤ totalSizeQ ctx := by linarith
    rw [dlLoop]
    by_cases hc0 : canceledAt ctx.cancelMoment t = true
    · rw [if_pos hc0, progressFractions_dlErrorOut]
      exact ⟨fun q hq => absurd hq (List.not_mem_nil q), List.Pairwise.nil⟩
    · rw [if_neg hc0]
      cases ha : acts i with
      | cached =>
        dsimp only
        by_cases hc1 : canceledAt ctx.cancelMoment (t + 1) = true
        · rw [if_pos hc1]
          have hev := dlLoop_events_of_canceled ctx acts remaining' (i + 1) (t + 2) done urls
            (canceledAt_mono hc1 (by omega))
          rw [hev]
          exact ⟨fun q hq => absurd hq (by simp [progressFractions]), by
            simp [progressFractions]⟩
        · rw [if_neg hc1]
          rw [withEvents_events, progressFractions_append]
          have hrec := ih (i + 1) (t + 2) (done + fileWeight ctx i) urls (by linarith)
            (by linarith)
          have hhead : progressFractions
              [(t + 1, Ev.bundle ctx.name
                (BKind.progress ((done + fileWeight ctx i) / totalSizeQ ctx)))] =
              [(done + fileWeight ctx i) / totalSizeQ ctx] := rfl
          rw [hhead]
          constructor
          · intro q hq
            rcases List.mem_append.mp hq with hq | hq
            · rw [List.mem_singleton.mp hq]
              exact ⟨divT_mono _ hT (by linarith), divT_le_one _ hT hup⟩
            · obtain ⟨hlow, hhigh⟩ := hrec.1 q hq
              refine ⟨le_trans (divT_mono _ hT (by linarith)) hlow, hhigh⟩
          · rw [List.pairwise_append]
            refine ⟨List.pairwise_singleton _ _, hrec.2, ?_⟩
            intro a ha' b hb
            rw [List.mem_singleton.mp ha']
            exact (hrec.1 b hb).1
      | download ticks res =>
        have htok : TicksOK ticks := by
          have hok' := hok i
          rw [ha] at hok'
          exact hok'
        dsimp only
        cases res with
        | ok =>
          dsimp only
          by_cases hc1 : canceledAt ctx.cancelMoment (t + 1 + ticks.length) = true
          · rw [if_pos hc1]
            rw [withEvents_events, progressFractions_append]
            have hev := dlLoop_events_of_canceled ctx acts remaining' (i + 1)
              (t + 1 + ticks.length + 1) done (urls ++ [ctx.files.getD i ""])
              (canceledAt_mono hc1 (by omega))
            rw [hev]
            constructor
            · intro q hq
              rcases List.mem_append.mp hq with hq | hq
              · exact tick_frac_bounds ctx _ done hw hd0 hT hup ticks htok (t + 1) q hq
              · exact absurd hq (by simp [progressFractions])
            · rw [List.pairwise_append]
              refine ⟨pairwise_tickEvents ctx _ done hw hT ticks (t + 1) htok.2, ?_, ?_⟩
              · simp [progressFractions]
              · intro a _ b hb
                exact absurd hb (by simp [progressFractions])
          · rw [if_neg hc1]
            rw [withEvents_events, progressFractions_append, progressFractions_append]
            have hrec := ih (i + 1) (t + 1 + ticks.length + 1) (done + fileWeight ctx i)
              (urls ++ [ctx.files.getD i ""]) (by linarith) (by linarith)
            have hhead : progressFractions
                [(t + 1 + ticks.length, Ev.bundle ctx.name
                  (BKind.progress ((done + fileWeight ctx i) / totalSizeQ ctx)))] =
                [(done + fileWeight ctx i) / totalSizeQ ctx] := rfl
            rw [hhead]
            have htb := tick_frac_bounds ctx _ done hw hd0 hT hup ticks htok (t + 1)
            have htup : ∀ q ∈ progressFractions (tickEvents ctx (fileWeight ctx i) done
                (t + 1) ticks), q ≤ (done + fileWeight ctx i) / totalSizeQ ctx := by
              intro q hq
              obtain ⟨tk, htk, rfl⟩ := mem_progressFractions_tickEvents ctx _ done ticks
                (t + 1) q hq
              apply divT_mono _ hT
              have h1r := ratio_le_one tk (htok.1 tk htk).1
              have := mul_le_mul_of_nonneg_right h1r hw
              linarith
            constructor
            · intro q hq
              rcases List.mem_append.mp hq with hq | hq
              · rcases List.mem_append.mp hq with hq | hq
                · exact htb q hq
                · rw [List.mem_singleton.mp hq]
                  exact ⟨divT_mono _ hT (by linarith), divT_le_one _ hT hup⟩
              · obtain ⟨hlow, hhigh⟩ := hrec.1 q hq
                exact ⟨le_trans (divT_mono _ hT (by linarith)) hlow, hhigh⟩
            · rw [List.pairwise_append, List.pairwise_append]
              refine ⟨⟨pairwise_tickEvents ctx _ done hw hT ticks (t + 1) htok.2,
                List.pairwise_singleton _ _, ?_⟩, hrec.2, ?_⟩
              · intro a ha' b hb
                rw [List.mem_singleton.mp hb]
                exact htup a ha'
              · intro a ha' b hb
                have hblow := (hrec.1 b hb).1
                rcases List.mem_append.mp ha' with ha' | ha'
                · exact le_trans (htup a ha') hblow
                · rw [List.mem_singleton.mp ha']
                  exact hblow
        | fail e =>
          dsimp only
          by_cases hab : (e.code == ABORT_ERR) = true
          · rw [if_pos hab]
            rw [withEvents_events, progressFractions_append]
            constructor
            · intro q hq
              rcases List.mem_append.mp hq with hq | hq
              · exact tick_frac_bounds ctx _ done hw hd0 hT hup ticks htok (t + 1) q hq
              · exact absurd hq (by simp [progressFractions])
            · rw [List.pairwise_append]
              refine ⟨pairwise_tickEvents ctx _ done hw hT ticks (t + 1) htok.2, ?_, ?_⟩
              · simp [progressFractions]
              · intro a _ b hb
                exact absurd hb (by simp [progressFractions])
          · rw [if_neg hab]
            rw [withEvents_events, progressFractions_append, progressFractions_dlErrorOut]
            constructor
            · intro q hq
              rcases List.mem_append.mp hq with hq | hq
              · exact tick_frac_bounds ctx _ done hw hd0 hT hup ticks htok (t + 1) q hq
              · exact absurd hq (List.not_mem_nil q)
            · rw [List.pairwise_append]
              refine ⟨pairwise_tickEvents ctx _ done hw hT ticks (t + 1) htok.2,
                List.Pairwise.nil, ?_⟩
              intro a _ b hb
              exact absurd hb (List.not_mem_nil b)
      | createFail code =>
        dsimp only
        rw [progressFractions_dlErrorOut]
        exact ⟨fun q hq => absurd hq (List.not_mem_nil q), List.Pairwise.nil⟩



theorem tickEvents_mem_not_canceled (ctx : DlCtx) (w done : ℚ) :
    ∀ (ticks : List Tick) (tm : Nat) (p : Nat × Ev),
      p ∈ tickEvents ctx w done tm ticks → canceledAt ctx.cancelMoment p.1 = false := by
  intro ticks
  induction ticks with
  | nil => intro tm p hp; exact absurd hp (List.not_mem_nil p)
  | cons tk rest ih =>
    intro tm p hp
    rw [tickEvents] at hp
    rcases List.mem_append.mp hp with hp | hp
    · by_cases hc : (tk.lengthComputable && !(canceledAt ctx.cancelMoment tm)) = true
      · rw [if_pos hc] at hp
        rw [List.mem_singleton.mp hp]
        have := (Bool.and_eq_true .. ▸ hc).2
        simpa using this
      · rw [if_neg hc] at hp
        exact absurd hp (List.not_mem_nil p)
    · exact ih (tm + 1) p hp

theorem dlErrorOut_no_progress (ctx : DlCtx) (t : Nat) (done : ℚ) (urls : List String)
    (msg : String) (retry : Bool) (tm : Nat) (nm : String) (d : ℚ) :
    (tm, Ev.bundle nm (BKind.progress d)) ∉ (dlErrorOut ctx t done urls msg retry).events := by
  unfold dlErrorOut
  by_cases hc : (!retry && !(canceledAt ctx.cancelMoment t)) = true
  · rw [if_pos hc]
    intro hmem
    have := List.mem_singleton.mp hmem
    cases this
  · rw [if_neg hc]
    exact List.not_mem_nil _

theorem dlLoop_no_progress_after_cancel (ctx : DlCtx) (acts : Nat → FileAction) :
    ∀ remaining i t done urls (tm : Nat) (nm : String) (d : ℚ),
      (tm, Ev.bundle nm (BKind.progress d)) ∈ (dlLoop ctx acts remaining i t done urls).events →
      canceledAt ctx.cancelMoment tm = false := by
  intro remaining
  induction remaining with
  | zero =>
    intro i t done urls tm nm d hmem
    rw [dlLoop] at hmem
    by_cases hc : canceledAt ctx.cancelMoment t = true
    · rw [if_pos hc] at hmem
      exact absurd hmem (dlErrorOut_no_progress ctx t done urls "canceled" false tm nm d)
    · rw [if_neg hc] at hmem
      have := List.mem_singleton.mp hmem
      cases this
  | succ remaining' ih =>
    intro i t done urls tm nm d hmem
    rw [dlLoop] at hmem
    by_cases hc0 : canceledAt ctx.cancelMoment t = true
    · rw [if_pos hc0] at hmem
      exact absurd hmem (dlErrorOut_no_progress ctx t done urls "canceled" false tm nm d)
    · rw [if_neg hc0] at hmem
      cases ha : acts i with
      | cached =>
        rw [ha] at hmem
        dsimp only at hmem
        by_cases hc1 : canceledAt ctx.cancelMoment (t + 1) = true
        · rw [if_pos hc1] at hmem
          exact ih (i + 1) (t + 2) done urls tm nm d hmem
        · rw [if_neg hc1] at hmem
          rw [withEvents_events] at hmem
          rcases List.mem_append.mp hmem with hmem | hmem
          · have hpair := List.mem_singleton.mp hmem
            have h1 : tm = t + 1 := congrArg Prod.fst hpair
            rw [h1]
            simpa using hc1
          · exact ih (i + 1) (t + 2) (done + fileWeight ctx i) urls tm nm d hmem
      | download ticks res =>
        rw [ha] at hmem
        dsimp only at hmem
        cases res with
        | ok =>
          dsimp only at hmem
          by_cases hc1 : canceledAt ctx.cancelMoment (t + 1 + ticks.length) = true
          · rw [if_pos hc1] at hmem
            rw [withEvents_events] at hmem
            rcases List.mem_append.mp hmem with hmem | hmem
            · exact tickEvents_mem_not_canceled ctx _ done ticks (t + 1) _ hmem
            · exact ih (i + 1) (t + 1 + ticks.length + 1) done _ tm nm d hmem
          · rw [if_neg hc1] at hmem
            rw [withEvents_events] at hmem
            rcases List.mem_append.mp hmem with hmem | hmem
            · rcases List.mem_append.mp hmem with hmem | hmem
              · exact tickEvents_mem_not_canceled ctx _ done ticks (t + 1) _ hmem
              · have hpair := List.mem_singleton.mp hmem
                have h1 : tm = t + 1 + ticks.length := congrArg Prod.fst hpair
                rw [h1]
                simpa using hc1
            · exact ih (i + 1) (t + 1 + ticks.length + 1) (done + fileWeight ctx i) _ tm nm d hmem
        | fail e =>
          dsimp only at hmem
          by_cases hab : (e.code == ABORT_ERR) = true
          · rw [if_pos hab] at hmem
            rw [withEvents_events] at hmem
            rcases List.mem_append.mp hmem with hmem | hmem
            · exact tickEvents_mem_not_canceled ctx _ done ticks (t + 1) _ hmem
            · exact absurd hmem (List.not_mem_nil _)
          · rw [if_neg hab] at hmem
            rw [withEvents_events] at hmem
            rcases List.mem_append.mp hmem with hmem | hmem
            · exact tickEvents_mem_not_canceled ctx _ done ticks (t + 1) _ hmem
            · exact absurd hmem (dlErrorOut_no_progress ctx _ done urls _ _ tm nm d)
      | createFail code =>
        rw [ha] at hmem
        dsimp only at hmem
        exact absurd hmem (dlErrorOut_no_progress ctx _ done urls _ _ tm nm d)



theorem restWeight_none (ctx : DlCtx) (h : ctx.fileSizes = none) :
    ∀ (r i : Nat), restWeight ctx i r = r := by
  intro r
  induction r with
  | zero => intro i; rfl
  | succ r ih =>
    intro i
    rw [restWeight, ih (i + 1)]
    unfold fileWeight
    rw [h]
    push_cast
    ring

theorem restWeight_some_le (ctx : DlCtx) (szs : List Nat) (h : ctx.fileSizes = some szs) :
    ∀ (r i : Nat), restWeight ctx i r ≤ ((szs.drop i).sum : ℚ) := by
  intro r
  induction r with
  | zero => intro i; exact Nat.cast_nonneg _
  | succ r ih =>
    intro i
    rw [restWeight]
    have hfw : fileWeight ctx i = (szs.getD i 0 : ℚ) := by
      unfold fileWeight
      rw [h]
    by_cases hi : i < szs.length
    · rw [List.drop_eq_getElem_cons hi, List.sum_cons, Nat.cast_add]
      rw [hfw, List.getD_eq_getElem?_getD, List.getElem?_eq_getElem hi, Option.getD_some]
      have := ih (i + 1)
      linarith
    · have hle : szs.length ≤ i := Nat.le_of_not_lt hi
      rw [List.drop_eq_nil_of_le hle]
      have := ih (i + 1)
      rw [List.drop_eq_nil_of_le (by omega)] at this
      rw [hfw, List.getD_eq_getElem?_getD, List.getElem?_eq_none hle]
      simp only [Option.getD_none, Nat.cast_zero, List.sum_nil] at this ⊢
      linarith

theorem restWeight_some_eq (ctx : DlCtx) (szs : List Nat) (h : ctx.fileSizes = some szs) :
    ∀ (r i : Nat), i + r = szs.length → restWeight ctx i r = ((szs.drop i).sum : ℚ) := by
  intro r
  induction r with
  | zero =>
    intro i hi
    rw [List.drop_eq_nil_of_le (by omega)]
    rfl
  | succ r ih =>
    intro i hi
    have hilt : i < szs.length := by omega
    rw [restWeight]
    have hfw : fileWeight ctx i = (szs.getD i 0 : ℚ) := by
      unfold fileWeight
      rw [h]
    rw [List.drop_eq_getElem_cons hilt, List.sum_cons, Nat.cast_add]
    rw [hfw, List.getD_eq_getElem?_getD, List.getElem?_eq_getElem hilt, Option.getD_some]
    rw [ih (i + 1) (by omega)]

theorem restWeight_le_total (ctx : DlCtx) :
    restWeight ctx 0 ctx.files.length ≤ totalSizeQ ctx := by
  rcases hs : ctx.fileSizes with _ | szs
  · rw [restWeight_none ctx hs]
    unfold totalSizeQ
    rw [hs]
  · have := restWeight_some_le ctx szs hs ctx.files.length 0
    rw [List.drop_zero] at this
    unfold totalSizeQ at *
    rw [hs]
    exact this

theorem restWeight_eq_total (ctx : DlCtx)
    (hlen : ∀ szs, ctx.fileSizes = some szs → szs.length = ctx.files.length) :
    restWeight ctx 0 ctx.files.length = totalSizeQ ctx := by
  rcases hs : ctx.fileSizes with _ | szs
  · rw [restWeight_none ctx hs]
    unfold totalSizeQ
    rw [hs]
  · have hl := hlen szs hs
    have := restWeight_some_eq ctx szs hs ctx.files.length 0 (by omega)
    rw [List.drop_zero] at this
    unfold totalSizeQ
    rw [hs]
    exact this

theorem withEvents_totalDone (evs : List (Nat × Ev)) (o : DlOutcome) :
    (withEvents evs o).totalDone = o.totalDone := rfl

theorem withEvents_loadedSet (evs : List (Nat × Ev)) (o : DlOutcome) :
    (withEvents evs o).loadedSet = o.loadedSet := rfl

theorem dlLoop_complete (ctx : DlCtx) (acts : Nat → FileAction)
    (hnc : ctx.cancelMoment = none) :
    ∀ remaining i t done urls,
      (∀ j, j < remaining → ActionSucceeds (acts (i + j))) →
      (dlLoop ctx acts remaining i t done urls).totalDone =
          done + restWeight ctx i remaining ∧
        (dlLoop ctx acts remaining i t done urls).loadedSet = true ∧
        (dlLoop ctx acts remaining i t done urls).failed = false ∧
        ∃ pre tm, (dlLoop ctx acts remaining i t done urls).events =
          pre ++ [(tm, Ev.bundle ctx.name BKind.loaded)] := by
  intro remaining
  induction remaining with
  | zero =>
    intro i t done urls _
    rw [dlLoop]
    rw [hnc]
    rw [if_cancel_none]
    refine ⟨?_, rfl, rfl, ⟨[], t, rfl⟩⟩
    rw [restWeight]
    ring
  | succ remaining' ih =>
    intro i t done urls hsucc
    have hs0 : ActionSucceeds (acts i) := by
      have := hsucc 0 (by omega)
      simpa using this
    have hsucc' : ∀ j, j < remaining' → ActionSucceeds (acts (i + 1 + j)) := by
      intro j hj
      have := hsucc (j + 1) (by omega)
      rwa [show i + (j + 1) = i + 1 + j by omega] at this
    rw [dlLoop]
    rw [hnc]
    rw [if_cancel_none]
    cases ha : acts i with
    | cached =>
      dsimp only
      rw [if_cancel_none]
      obtain ⟨h1, h2, h3, pre, tm, h4⟩ :=
        ih (i + 1) (t + 2) (done + fileWeight ctx i) urls hsucc'
      refine ⟨?_, ?_, ?_, ?_⟩
      · rw [withEvents_totalDone, h1, restWeight]
        ring
      · rw [withEvents_loadedSet]
        exact h2
      · rw [withEvents_failed]
        exact h3
      · rw [withEvents_events, h4]
        exact ⟨_ ++ pre, tm, by rw [List.append_assoc]⟩
    | download ticks res =>
      cases res with
      | ok =>
        dsimp only
        rw [if_cancel_none]
        obtain ⟨h1, h2, h3, pre, tm, h4⟩ :=
          ih (i + 1) (t + 1 + ticks.length + 1) (done + fileWeight ctx i)
            (urls ++ [ctx.files.getD i ""]) hsucc'
        refine ⟨?_, ?_, ?_, ?_⟩
        · rw [withEvents_totalDone, h1, restWeight]
          ring
        · rw [withEvents_loadedSet]
          exact h2
        · rw [withEvents_failed]
          exact h3
        · rw [withEvents_events, h4]
          refine ⟨tickEvents ctx (fileWeight ctx i) done (t + 1) ticks ++
            [(t + 1 + ticks.length, Ev.bundle ctx.name
              (BKind.progress ((done + fileWeight ctx i) / totalSizeQ ctx)))] ++ pre, tm, ?_⟩
          simp [List.append_assoc]
      | fail e =>
        rw [ha] at hs0
        exact absurd hs0 (by simp [ActionSucceeds])
    | createFail code =>
      rw [ha] at hs0
      exact absurd hs0 (by simp [ActionSucceeds])



/-- Claim C6 (over one execution of _downloadBundle, i.e. one load attempt;
an automatic retry re-runs the orchestrator with a fresh totalDoneSize): with
valid transport ticks the emitted done fractions are non-decreasing and never
exceed 1, the total weight being the sum of the fileSizes hints or the file
count; no progress event is emitted at a moment when the task's canceled flag
reads true; and a never-canceled run whose files all succeed ends with the
done total equal to the total weight, the bundle marked loaded, and a final
bundle-loaded event. -/
theorem downloadBundle_progress :
    (∀ ctx acts, (∀ i, ActionOK (acts i)) →
      (∀ q ∈ progressFractions (_downloadBundle ctx acts).events, 0 ≤ q ∧ q ≤ 1) ∧
      (progressFractions (_downloadBundle ctx acts).events).Pairwise (· ≤ ·)) ∧
    (∀ ctx acts (tm : Nat) (nm : String) (d : ℚ),
      (tm, Ev.bundle nm (BKind.progress d)) ∈ (_downloadBundle ctx acts).events →
      canceledAt ctx.cancelMoment tm = false) ∧
    (∀ ctx acts, ctx.cancelMoment = none →
      (∀ j, j < ctx.files.length → ActionSucceeds (acts j)) →
      (∀ szs, ctx.fileSizes = some szs → szs.length = ctx.files.length) →
      (_downloadBundle ctx acts).totalDone = totalSizeQ ctx ∧
      (_downloadBundle ctx acts).loadedSet = true ∧
      (_downloadBundle ctx acts).failed = false ∧
      ∃ pre tm, (_downloadBundle ctx acts).events =
        pre ++ [(tm, Ev.bundle ctx.name BKind.loaded)]) := by
  refine ⟨fun ctx acts hok => ?_, fun ctx acts tm nm d hmem => ?_,
    fun ctx acts hnc hsucc hlen => ?_⟩
  · have hm := dlLoop_progress_mono ctx acts hok ctx.files.length 0 1 0 [] le_rfl
      (by rw [zero_add]; exact restWeight_le_total ctx)
    have hpf : progressFractions (_downloadBundle ctx acts).events =
        progressFractions (dlLoop ctx acts ctx.files.length 0 1 0 []).events := by
      rw [_downloadBundle, withEvents_events, progressFractions_append]
      rfl
    rw [hpf]
    refine ⟨fun q hq => ?_, hm.2⟩
    obtain ⟨h1, h2⟩ := hm.1 q hq
    rw [zero_div] at h1
    exact ⟨h1, h2⟩
  · rw [_downloadBundle, withEvents_events] at hmem
    rcases List.mem_append.mp hmem with hmem | hmem
    · have := List.mem_singleton.mp hmem
      have h2 := congrArg Prod.snd this
      cases h2
    · exact dlLoop_no_progress_after_cancel ctx acts ctx.files.length 0 1 0 [] tm nm d hmem
  · obtain ⟨h1, h2, h3, pre, tm, h4⟩ := dlLoop_complete ctx acts hnc ctx.files.length 0 1 0 []
      (fun j hj => by simpa using hsucc j hj)
    refine ⟨?_, ?_, ?_, ?_⟩
    · rw [_downloadBundle, withEvents_totalDone, h1, zero_add]
      exact restWeight_eq_total ctx hlen
    · rw [_downloadBundle, withEvents_loadedSet]
      exact h2
    · rw [_downloadBundle, withEvents_failed]
      exact h3
    · rw [_downloadBundle, withEvents_events, h4]
      exact ⟨(0, Ev.bundle ctx.name BKind.loading) :: pre, tm, rfl⟩

/-- Witness for C6: a two-file bundle, one cached file and one downloaded
file with one mid-transfer tick. -/
theorem downloadBundle_progress_witness :
    (0 ≤ (1 : ℚ)/2 ∧ (1 : ℚ)/2 ≤ 1) ∧
    (progressFractions (_downloadBundle ⟨"b", ["f1", "f2"], none, none⟩
      (fun i => if i = 0 then FileAction.cached
                else FileAction.download [⟨true, 1, 2⟩] DlRes.ok)).events).Pairwise (· ≤ ·) ∧
    canceledAt (none : Option Nat) 2 = false ∧
    (_downloadBundle ⟨"b", ["f1", "f2"], none, none⟩
      (fun i => if i = 0 then FileAction.cached
                else FileAction.download [⟨true, 1, 2⟩] DlRes.ok)).totalDone =
      totalSizeQ ⟨"b", ["f1", "f2"], none, none⟩ ∧
    (_downloadBundle ⟨"b", ["f1", "f2"], none, none⟩
      (fun i => if i = 0 then FileAction.cached
                else FileAction.download [⟨true, 1, 2⟩] DlRes.ok)).loadedSet = true ∧
    ∃ pre tm, (_downloadBundle ⟨"b", ["f1", "f2"], none, none⟩
      (fun i => if i = 0 then FileAction.cached
                else FileAction.download [⟨true, 1, 2⟩] DlRes.ok)).events =
      pre ++ [(tm, Ev.bundle "b" BKind.loaded)] := by
  have hok : ∀ i, ActionOK ((fun i => if i = 0 then FileAction.cached
      else FileAction.download [⟨true, 1, 2⟩] DlRes.ok) i) := by
    intro i
    dsimp only
    by_cases h : i = 0
    · rw [if_pos h]
      exact trivial
    · rw [if_neg h]
      exact ⟨fun tk htk => by
        have h2 := List.mem_singleton.mp htk
        subst h2
        exact ⟨by decide, by decide⟩, List.pairwise_singleton _ _⟩
  have hsucc : ∀ j, j < (⟨"b", ["f1", "f2"], none, none⟩ : DlCtx).files.length →
      ActionSucceeds ((fun i => if i = 0 then FileAction.cached
        else FileAction.download [⟨true, 1, 2⟩] DlRes.ok) j) := by
    intro j _
    dsimp only
    by_cases h : j = 0
    · rw [if_pos h]
      exact trivial
    · rw [if_neg h]
      exact rfl
  have hlen : ∀ szs, (⟨"b", ["f1", "f2"], none, none⟩ : DlCtx).fileSizes = some szs →
      szs.length = (⟨"b", ["f1", "f2"], none, none⟩ : DlCtx).files.length := by
    intro szs h
    cases h
  have hev : progressFractions (_downloadBundle ⟨"b", ["f1", "f2"], none, none⟩
      (fun i => if i = 0 then FileAction.cached
                else FileAction.download [⟨true, 1, 2⟩] DlRes.ok)).events =
      [(1 : ℚ)/2, 3/4, 1] := by
    simp [_downloadBundle, dlLoop, withEvents, tickEvents, dlErrorOut, progressFractions,
      fileWeight, totalSizeQ, canceledAt]
    norm_num
  have hevs : (_downloadBundle ⟨"b", ["f1", "f2"], none, none⟩
      (fun i => if i = 0 then FileAction.cached
                else FileAction.download [⟨true, 1, 2⟩] DlRes.ok)).events =
      [(0, Ev.bundle "b" BKind.loading),
       (2, Ev.bundle "b" (BKind.progress ((1 : ℚ)/2))),
       (4, Ev.bundle "b" (BKind.progress ((3 : ℚ)/4))),
       (5, Ev.bundle "b" (BKind.progress (1 : ℚ))),
       (6, Ev.bundle "b" BKind.loaded)] := by
    simp [_downloadBundle, dlLoop, withEvents, tickEvents, dlErrorOut,
      fileWeight, totalSizeQ, canceledAt]
    norm_num
  have hmono := downloadBundle_progress.1 ⟨"b", ["f1", "f2"], none, none⟩
    (fun i => if i = 0 then FileAction.cached
      else FileAction.download [⟨true, 1, 2⟩] DlRes.ok) hok
  have hcomp := downloadBundle_progress.2.2 ⟨"b", ["f1", "f2"], none, none⟩
    (fun i => if i = 0 then FileAction.cached
      else FileAction.download [⟨true, 1, 2⟩] DlRes.ok) rfl hsucc hlen
  refine ⟨hmono.1 ((1 : ℚ)/2) (by rw [hev]; exact List.mem_cons_self _ _), hmono.2, ?_,
    hcomp.1, hcomp.2.1, hcomp.2.2.2⟩
  exact downloadBundle_progress.2.1 ⟨"b", ["f1", "f2"], none, none⟩
    (fun i => if i = 0 then FileAction.cached
      else FileAction.download [⟨true, 1, 2⟩] DlRes.ok) 2 "b" ((1 : ℚ)/2)
    (by rw [hevs]; exact List.mem_cons_of_mem _ (List.mem_cons_self _ _))


theorem dropWhile_head_false {α : Type} (p : α → Bool) :
    ∀ (l : List α) (t : α) (post : List α), l.dropWhile p = t :: post → p t = false := by
  intro l
  induction l with
  | nil => intro t post h; cases h
  | cons a l ih =>
    intro t post h
    by_cases hpa : p a = true
    · rw [List.dropWhile_cons_of_pos hpa] at h
      exact ih t post h
    · rw [List.dropWhile_cons_of_neg hpa] at h
      injection h with h1 _
      subst h1
      simpa using hpa

theorem lnf_eq_countP (ts : List TaskR) :
    liveNonFailedCount ts = ts.countP (fun t => !t.canceled && !t.failed) :=
  (List.countP_eq_length_filter _ _).symm

theorem lcNT_eq_countP (ts : List TaskR) (n : String) (ty : TType) :
    liveCountNT ts n ty =
      ts.countP (fun t => t.bundleName == n && t.ttype == ty && !t.canceled) :=
  (List.countP_eq_length_filter _ _).symm

theorem lnf_filter_not_canceled (ts : List TaskR) :
    liveNonFailedCount (ts.filter (fun t => !t.canceled)) = liveNonFailedCount ts := by
  unfold liveNonFailedCount
  rw [List.filter_filter]
  apply congrArg List.length
  apply List.filter_congr
  intro t _
  cases hc : t.canceled <;> cases hf : t.failed <;> simp [hc, hf]

theorem lcNT_filter_not_canceled (ts : List TaskR) (n : String) (ty : TType) :
    liveCountNT (ts.filter (fun t => !t.canceled)) n ty = liveCountNT ts n ty := by
  unfold liveCountNT
  rw [List.filter_filter]
  apply congrArg List.length
  apply List.filter_congr
  intro t _
  cases hc : t.canceled <;> simp [hc]

theorem applyExecFlags_name (t : TaskR) (r : ExecResult) :
    (applyExecFlags t r).bundleName = t.bundleName := rfl

theorem applyExecFlags_ttype (t : TaskR) (r : ExecResult) :
    (applyExecFlags t r).ttype = t.ttype := rfl

theorem globalEvents_append (a b : List Ev) :
    globalEvents (a ++ b) = globalEvents a ++ globalEvents b := by
  simp [globalEvents]

theorem globalEvents_map_bundle (n : String) (ks : List BKind) :
    globalEvents (ks.map (fun k => Ev.bundle n k)) = [] := by
  induction ks with
  | nil => rfl
  | cons k ks ih =>
    rw [List.map_cons]
    rw [show globalEvents (Ev.bundle n k :: ks.map (fun k => Ev.bundle n k)) =
      globalEvents (ks.map (fun k => Ev.bundle n k)) from rfl]
    exact ih

theorem drop_head_canceled_false (ts : List TaskR) (t : TaskR) (post : List TaskR)
    (hdrop : (ts.filter (fun x => !x.canceled)).dropWhile (fun x => x.failed) = t :: post) :
    t.canceled = false := by
  have hmem : t ∈ ts.filter (fun x => !x.canceled) := by
    have hm2 : t ∈ (ts.filter (fun x => !x.canceled)).dropWhile (fun x => x.failed) := by
      rw [hdrop]
      exact List.mem_cons_self t post
    exact (List.dropWhile_sublist _).subset hm2
  have := (List.mem_filter.mp hmem).2
  simpa using this

theorem drop_head_mem (ts : List TaskR) (t : TaskR) (post : List TaskR)
    (hdrop : (ts.filter (fun x => !x.canceled)).dropWhile (fun x => x.failed) = t :: post) :
    t ∈ ts := by
  have hmem : t ∈ ts.filter (fun x => !x.canceled) := by
    have hm2 : t ∈ (ts.filter (fun x => !x.canceled)).dropWhile (fun x => x.failed) := by
      rw [hdrop]
      exact List.mem_cons_self t post
    exact (List.dropWhile_sublist _).subset hm2
  exact (List.filter_sublist _).subset hmem

theorem lnf_after_step_lt (ts : List TaskR) (t t' : TaskR) (post : List TaskR)
    (hdrop : (ts.filter (fun x => !x.canceled)).dropWhile (fun x => x.failed) = t :: post) :
    ((t'.canceled = true ∨ t'.failed = true) →
      liveNonFailedCount
          ((ts.filter (fun x => !x.canceled)).takeWhile (fun x => x.failed) ++ t' :: post) <
        liveNonFailedCount ts) ∧
    liveNonFailedCount
        ((ts.filter (fun x => !x.canceled)).takeWhile (fun x => x.failed) ++ post) <
      liveNonFailedCount ts := by
  have htf : t.failed = false := dropWhile_head_false _ _ t post hdrop
  have htc : t.canceled = false := drop_head_canceled_false ts t post hdrop
  have hsplit : (ts.filter (fun x => !x.canceled)).takeWhile (fun x => x.failed) ++ t :: post =
      ts.filter (fun x => !x.canceled) := by
    rw [← hdrop]
    exact List.takeWhile_append_dropWhile _ _
  generalize hpre : (ts.filter (fun x => !x.canceled)).takeWhile (fun x => x.failed) = pre
  rw [hpre] at hsplit
  have hpre0 : pre.countP (fun x => !x.canceled && !x.failed) = 0 := by
    rw [List.countP_eq_zero]
    intro a ha
    rw [← hpre] at ha
    have := List.mem_takeWhile_imp ha
    simp [this]
  have hbase : liveNonFailedCount ts =
      pre.countP (fun x => !x.canceled && !x.failed) +
        (1 + post.countP (fun x => !x.canceled && !x.failed)) := by
    rw [← lnf_filter_not_canceled ts, ← hsplit, lnf_eq_countP, List.countP_append,
      List.countP_cons]
    simp only [htf, htc, Bool.not_false, Bool.and_self, if_pos]
    omega
  constructor
  · intro ht'
    rw [lnf_eq_countP, List.countP_append, List.countP_cons, hbase, hpre0]
    rcases ht' with h | h <;> simp [h] <;> omega
  · rw [lnf_eq_countP, List.countP_append, hbase, hpre0]
    omega

theorem lnf_step_chain_lt (ts : List TaskR) (t t' : TaskR) (post : List TaskR)
    (hdrop : (ts.filter (fun x => !x.canceled)).dropWhile (fun x => x.failed) = t :: post) :
    liveNonFailedCount
        (if t'.canceled = true then
          (ts.filter (fun x => !x.canceled)).takeWhile (fun x => x.failed) ++ t' :: post
         else if t'.failed = true then
          (if t'.retry = true then
            (ts.filter (fun x => !x.canceled)).takeWhile (fun x => x.failed) ++ t' :: post
           else (ts.filter (fun x => !x.canceled)).takeWhile (fun x => x.failed) ++ post)
         else (ts.filter (fun x => !x.canceled)).takeWhile (fun x => x.failed) ++ post) <
      liveNonFailedCount ts := by
  have hstep := lnf_after_step_lt ts t t' post hdrop
  by_cases hc : t'.canceled = true
  · rw [if_pos hc]
    exact hstep.1 (Or.inl hc)
  · rw [if_neg hc]
    by_cases hf : t'.failed = true
    · rw [if_pos hf]
      by_cases hr : t'.retry = true
      · rw [if_pos hr]
        exact hstep.1 (Or.inr hf)
      · rw [if_neg hr]
        exact hstep.2
    · rw [if_neg hf]
      exact hstep.2

theorem drain_busy_notbusy (exec : String → TType → ExecResult) :
    ∀ (fuel : Nat) (ts : List TaskR), liveNonFailedCount ts < fuel →
      globalEvents (drainLoop exec fuel true ts).1 = [Ev.notbusy] ∧
      (drainLoop exec fuel true ts).2.1 = false := by
  intro fuel
  induction fuel with
  | zero => intro ts h; omega
  | succ fuel ih =>
    intro ts h
    rw [drainLoop]
    dsimp only
    cases hdrop : (ts.filter (fun t => !t.canceled)).dropWhile (fun t => t.failed) with
    | nil => exact ⟨rfl, rfl⟩
    | cons t post =>
      dsimp only
      have hchain := lnf_step_chain_lt ts t (applyExecFlags t (exec t.bundleName t.ttype))
        post hdrop
      constructor
      · rw [globalEvents_append, globalEvents_append, globalEvents_map_bundle]
        rw [show globalEvents (if true = true then ([] : List Ev) else [Ev.busy]) = [] from rfl]
        rw [List.nil_append, List.nil_append]
        exact (ih _ (by omega)).1
      · exact (ih _ (by omega)).2

theorem drop_nil_of_lnf_zero (ts : List TaskR) (h : liveNonFailedCount ts = 0) :
    (ts.filter (fun t => !t.canceled)).dropWhile (fun t => t.failed) = [] := by
  rw [List.dropWhile_eq_nil_iff]
  intro x hx
  have hx' := List.mem_filter.mp hx
  have h0 : ts.countP (fun t => !t.canceled && !t.failed) = 0 := by
    rw [← lnf_eq_countP]
    exact h
  rw [List.countP_eq_zero] at h0
  have hnot := h0 x hx'.1
  by_cases hfx : x.failed = true
  · exact hfx
  · exfalso
    apply hnot
    have hc : (!x.canceled) = true := hx'.2
    rw [Bool.not_eq_true] at hfx
    simp [hc, hfx]

theorem drop_cons_of_lnf_ne (ts : List TaskR) (h : liveNonFailedCount ts ≠ 0) :
    ∃ t post, (ts.filter (fun t => !t.canceled)).dropWhile (fun t => t.failed) = t :: post := by
  cases hd : (ts.filter (fun t => !t.canceled)).dropWhile (fun t => t.failed) with
  | nil =>
    exfalso
    apply h
    rw [← lnf_filter_not_canceled ts, lnf_eq_countP, List.countP_eq_zero]
    intro a ha
    have hf := List.dropWhile_eq_nil_iff.mp hd a ha
    simp [hf]
  | cons t post => exact ⟨t, post, rfl⟩

/-- C8: with the manager idle, a drain over a task list that still holds a
live non-failed task emits exactly one busy event at the start and exactly
one not-busy event at the end (and nothing global in between), returning the
manager to idle; a drain over a list with no live non-failed task emits no
event at all; and a reentrant call (manager already draining) does nothing,
so the pair brackets each working period exactly once. -/
theorem doTasks_busy_bracketing (exec : String → TType → ExecResult) (st : Sched)
    (hidle : st.doingTasks = false) :
    (liveNonFailedCount st.tasks ≠ 0 →
      globalEvents (_doTasks exec st).1 = [Ev.busy, Ev.notbusy] ∧
      (_doTasks exec st).2.doingTasks = false) ∧
    (liveNonFailedCount st.tasks = 0 →
      (_doTasks exec st).1 = [] ∧ (_doTasks exec st).2.doingTasks = false) ∧
    (∀ st2 : Sched, st2.doingTasks = true → _doTasks exec st2 = ([], st2)) := by
  refine ⟨?_, ?_, ?_⟩
  · intro hne
    obtain ⟨t, post, hdrop⟩ := drop_cons_of_lnf_ne st.tasks hne
    unfold _doTasks
    rw [hidle]
    rw [if_neg (by simp)]
    dsimp only
    rw [drainLoop]
    dsimp only
    rw [hdrop]
    dsimp only
    have hchain := lnf_step_chain_lt st.tasks t (applyExecFlags t (exec t.bundleName t.ttype))
      post hdrop
    have hrest := drain_busy_notbusy exec (liveNonFailedCount st.tasks) _ hchain
    constructor
    · rw [globalEvents_append, globalEvents_append, globalEvents_map_bundle]
      rw [show globalEvents (if false = true then ([] : List Ev) else [Ev.busy]) = [Ev.busy]
        from rfl]
      rw [hrest.1]
      rfl
    · exact hrest.2
  · intro hz
    unfold _doTasks
    rw [hidle]
    rw [if_neg (by simp)]
    dsimp only
    rw [drainLoop]
    dsimp only
    rw [drop_nil_of_lnf_zero st.tasks hz]
    dsimp only
    exact ⟨rfl, rfl⟩
  · intro st2 h2
    unfold _doTasks
    rw [h2]
    rw [if_pos rfl]

/-- Witness for C8 at a one-task list and at an already-draining manager. -/
theorem doTasks_busy_bracketing_witness :
    globalEvents
        (_doTasks (fun _ _ => ⟨[BKind.loading, BKind.loaded], none, false⟩)
          ⟨[⟨"b", TType.load, false, false, false, none⟩], false⟩).1 = [Ev.busy, Ev.notbusy] ∧
    _doTasks (fun _ _ => ⟨[BKind.loading, BKind.loaded], none, false⟩)
        ⟨[⟨"b", TType.load, false, false, false, none⟩], true⟩ =
      ([], ⟨[⟨"b", TType.load, false, false, false, none⟩], true⟩) := by
  have h := doTasks_busy_bracketing (fun _ _ => ⟨[BKind.loading, BKind.loaded], none, false⟩)
    ⟨[⟨"b", TType.load, false, false, false, none⟩], false⟩ rfl
  exact ⟨(h.1 (by decide)).1, h.2.2 _ rfl⟩


theorem eventsForBundle_append (a b : List Ev) (n : String) :
    eventsForBundle (a ++ b) n = eventsForBundle a n ++ eventsForBundle b n := by
  simp [eventsForBundle]

theorem eventsForBundle_map_bundle_ne (n b : String) (hne : n ≠ b) (ks : List BKind) :
    eventsForBundle (ks.map (fun k => Ev.bundle n k)) b = [] := by
  rw [eventsForBundle, List.filter_eq_nil_iff]
  intro e he
  obtain ⟨k, _, rfl⟩ := List.mem_map.mp he
  simp [hne]

theorem ts2_mem (ts : List TaskR) (t t' : TaskR) (post : List TaskR)
    (hdrop : (ts.filter (fun x => !x.canceled)).dropWhile (fun x => x.failed) = t :: post)
    (x : TaskR)
    (hx : x ∈ (ts.filter (fun x => !x.canceled)).takeWhile (fun x => x.failed) ++ t' :: post ∨
          x ∈ (ts.filter (fun x => !x.canceled)).takeWhile (fun x => x.failed) ++ post) :
    x = t' ∨ x ∈ ts := by
  have hta : ∀ y, y ∈ (ts.filter (fun x => !x.canceled)).takeWhile (fun x => x.failed) →
      y ∈ ts := by
    intro y hy
    exact (List.filter_sublist _).subset ((List.takeWhile_sublist _).subset hy)
  have hpo : ∀ y, y ∈ post → y ∈ ts := by
    intro y hy
    apply (List.filter_sublist _).subset
    apply (List.dropWhile_sublist _).subset
    rw [hdrop]
    exact List.mem_cons_of_mem _ hy
  rcases hx with hx | hx
  · rcases List.mem_append.mp hx with h1 | h2
    · exact Or.inr (hta x h1)
    · rcases List.mem_cons.mp h2 with h3 | h4
      · exact Or.inl h3
      · exact Or.inr (hpo x h4)
  · rcases List.mem_append.mp hx with h1 | h2
    · exact Or.inr (hta x h1)
    · exact Or.inr (hpo x h2)

theorem drain_silent_of_canceled (exec : String → TType → ExecResult) (b : String) :
    ∀ (fuel : Nat) (busy : Bool) (ts : List TaskR),
      (∀ x ∈ ts, x.bundleName = b → x.canceled = true) →
      eventsForBundle (drainLoop exec fuel busy ts).1 b = [] ∧
      (∀ x ∈ (drainLoop exec fuel busy ts).2.2, x.bundleName = b → x.canceled = true) := by
  intro fuel
  induction fuel with
  | zero => intro busy ts h; exact ⟨rfl, h⟩
  | succ fuel ih =>
    intro busy ts h
    rw [drainLoop]
    dsimp only
    cases hdrop : (ts.filter (fun t => !t.canceled)).dropWhile (fun t => t.failed) with
    | nil =>
      cases busy
      · rw [if_neg (by simp)]
        exact ⟨rfl, fun x hx => h x ((List.filter_sublist _).subset hx)⟩
      · rw [if_pos rfl]
        exact ⟨rfl, fun x hx => h x ((List.filter_sublist _).subset hx)⟩
    | cons t post =>
      dsimp only
      have htc : t.canceled = false := drop_head_canceled_false ts t post hdrop
      have hne : t.bundleName ≠ b := by
        intro hb
        rw [h t (drop_head_mem ts t post hdrop) hb] at htc
        cases htc
      have hts2 : ∀ x ∈ (if (applyExecFlags t (exec t.bundleName t.ttype)).canceled = true then
            (ts.filter (fun t => !t.canceled)).takeWhile (fun t => t.failed) ++
              applyExecFlags t (exec t.bundleName t.ttype) :: post
          else if (applyExecFlags t (exec t.bundleName t.ttype)).failed = true then
            (if (applyExecFlags t (exec t.bundleName t.ttype)).retry = true then
              (ts.filter (fun t => !t.canceled)).takeWhile (fun t => t.failed) ++
                applyExecFlags t (exec t.bundleName t.ttype) :: post
             else (ts.filter (fun t => !t.canceled)).takeWhile (fun t => t.failed) ++ post)
          else (ts.filter (fun t => !t.canceled)).takeWhile (fun t => t.failed) ++ post),
          x.bundleName = b → x.canceled = true := by
        intro x hx
        have hor : x ∈ (ts.filter (fun x => !x.canceled)).takeWhile (fun x => x.failed) ++
              applyExecFlags t (exec t.bundleName t.ttype) :: post ∨
            x ∈ (ts.filter (fun x => !x.canceled)).takeWhile (fun x => x.failed) ++ post := by
          split_ifs at hx
          · exact Or.inl hx
          · exact Or.inl hx
          · exact Or.inr hx
          · exact Or.inr hx
        rcases ts2_mem ts t (applyExecFlags t (exec t.bundleName t.ttype)) post hdrop x hor
          with rfl | hmem
        · intro hb
          exfalso
          rw [applyExecFlags_name] at hb
          exact hne hb
        · exact h x hmem
      constructor
      · rw [eventsForBundle_append, eventsForBundle_append,
          eventsForBundle_map_bundle_ne _ _ hne]
        rw [show eventsForBundle (if busy = true then ([] : List Ev) else [Ev.busy]) b = []
          from by cases busy <;> rfl]
        rw [List.nil_append, List.nil_append]
        exact (ih true _ hts2).1
      · exact (ih true _ hts2).2

/-- C7: a bundle all of whose queued tasks are canceled before the drain runs
never has a lifecycle event delivered for it: the drain (and hence _doTasks)
emits no event naming that bundle, and every residual task of the bundle is
still canceled (so it is dropped, never executed, on this and later drains). -/
theorem canceled_pending_task_silent (exec : String → TType → ExecResult) (st : Sched)
    (b : String) (hall : ∀ t ∈ st.tasks, t.bundleName = b → t.canceled = true) :
    eventsForBundle (_doTasks exec st).1 b = [] ∧
    ∀ t ∈ (_doTasks exec st).2.tasks, t.bundleName = b → t.canceled = true := by
  unfold _doTasks
  by_cases hd : st.doingTasks = true
  · rw [if_pos hd]
    exact ⟨rfl, hall⟩
  · rw [if_neg hd]
    dsimp only
    exact ⟨(drain_silent_of_canceled exec b _ _ _ hall).1,
           (drain_silent_of_canceled exec b _ _ _ hall).2⟩

/-- Witness for C7: a canceled pending load of bundle b next to a live load of
bundle c; the drain emits events for c only, none for b. -/
theorem canceled_pending_task_silent_witness :
    eventsForBundle
        (_doTasks (fun _ _ => ⟨[BKind.loading, BKind.loaded], none, false⟩)
          ⟨[⟨"b", TType.load, false, true, false, none⟩,
            ⟨"c", TType.load, false, false, false, none⟩], false⟩).1 "b" = [] :=
  (canceled_pending_task_silent (fun _ _ => ⟨[BKind.loading, BKind.loaded], none, false⟩)
    ⟨[⟨"b", TType.load, false, true, false, none⟩,
      ⟨"c", TType.load, false, false, false, none⟩], false⟩ "b" (by decide)).1


theorem key_applyExecFlags (t : TaskR) (r : ExecResult) (n : String) (ty : TType)
    (h : ((applyExecFlags t r).bundleName == n && (applyExecFlags t r).ttype == ty &&
      !(applyExecFlags t r).canceled) = true) :
    (t.bundleName == n && t.ttype == ty && !t.canceled) = true := by
  simp [applyExecFlags] at h ⊢
  tauto

theorem lcNT_step_chain_le (ts : List TaskR) (t : TaskR) (r : ExecResult) (post : List TaskR)
    (hdrop : (ts.filter (fun x => !x.canceled)).dropWhile (fun x => x.failed) = t :: post)
    (n : String) (ty : TType) :
    liveCountNT
        (if (applyExecFlags t r).canceled = true then
          (ts.filter (fun x => !x.canceled)).takeWhile (fun x => x.failed) ++
            applyExecFlags t r :: post
         else if (applyExecFlags t r).failed = true then
          (if (applyExecFlags t r).retry = true then
            (ts.filter (fun x => !x.canceled)).takeWhile (fun x => x.failed) ++
              applyExecFlags t r :: post
           else (ts.filter (fun x => !x.canceled)).takeWhile (fun x => x.failed) ++ post)
         else (ts.filter (fun x => !x.canceled)).takeWhile (fun x => x.failed) ++ post) n ty ≤
      liveCountNT ts n ty := by
  have hsplit : (ts.filter (fun x => !x.canceled)).takeWhile (fun x => x.failed) ++ t :: post =
      ts.filter (fun x => !x.canceled) := by
    rw [← hdrop]
    exact List.takeWhile_append_dropWhile _ _
  generalize hpre : (ts.filter (fun x => !x.canceled)).takeWhile (fun x => x.failed) = pre
  rw [hpre] at hsplit
  have hbase : liveCountNT ts n ty =
      pre.countP (fun x => x.bundleName == n && x.ttype == ty && !x.canceled) +
        (post.countP (fun x => x.bundleName == n && x.ttype == ty && !x.canceled) +
          if (t.bundleName == n && t.ttype == ty && !t.canceled) = true then 1 else 0) := by
    rw [← lcNT_filter_not_canceled ts, ← hsplit, lcNT_eq_countP, List.countP_append,
      List.countP_cons]
  have hcontrib :
      (if ((applyExecFlags t r).bundleName == n && (applyExecFlags t r).ttype == ty &&
          !(applyExecFlags t r).canceled) = true then 1 else 0) ≤
        if (t.bundleName == n && t.ttype == ty && !t.canceled) = true then 1 else 0 := by
    by_cases hk : ((applyExecFlags t r).bundleName == n && (applyExecFlags t r).ttype == ty &&
        !(applyExecFlags t r).canceled) = true
    · rw [if_pos hk, if_pos (key_applyExecFlags t r n ty hk)]
    · rw [if_neg hk]
      exact Nat.zero_le _
  by_cases hc : (applyExecFlags t r).canceled = true
  · rw [if_pos hc, lcNT_eq_countP, List.countP_append, List.countP_cons, hbase]
    omega
  · rw [if_neg hc]
    by_cases hf : (applyExecFlags t r).failed = true
    · rw [if_pos hf]
      by_cases hr : (applyExecFlags t r).retry = true
      · rw [if_pos hr, lcNT_eq_countP, List.countP_append, List.countP_cons, hbase]
        omega
      · rw [if_neg hr, lcNT_eq_countP, List.countP_append, hbase]
        omega
    · rw [if_neg hf, lcNT_eq_countP, List.countP_append, hbase]
      omega

theorem lcNT_drain_le (exec : String → TType → ExecResult) (n : String) (ty : TType) :
    ∀ (fuel : Nat) (busy : Bool) (ts : List TaskR),
      liveCountNT (drainLoop exec fuel busy ts).2.2 n ty ≤ liveCountNT ts n ty := by
  intro fuel
  induction fuel with
  | zero => intro busy ts; exact Nat.le_refl _
  | succ fuel ih =>
    intro busy ts
    rw [drainLoop]
    dsimp only
    cases hdrop : (ts.filter (fun t => !t.canceled)).dropWhile (fun t => t.failed) with
    | nil =>
      cases busy
      · rw [if_neg (by simp)]
        exact Nat.le_of_eq (lcNT_filter_not_canceled ts n ty)
      · rw [if_pos rfl]
        exact Nat.le_of_eq (lcNT_filter_not_canceled ts n ty)
    | cons t post =>
      dsimp only
      exact Nat.le_trans (ih true _)
        (lcNT_step_chain_le ts t (exec t.bundleName t.ttype) post hdrop n ty)

theorem lcNT_doTasks_le (exec : String → TType → ExecResult) (st : Sched) (n : String)
    (ty : TType) :
    liveCountNT (_doTasks exec st).2.tasks n ty ≤ liveCountNT st.tasks n ty := by
  unfold _doTasks
  by_cases hd : st.doingTasks = true
  · rw [if_pos hd]
  · rw [if_neg hd]
    dsimp only
    exact lcNT_drain_le exec n ty _ _ _

theorem hasLiveTask_false_iff (ts : List TaskR) (n : String) (ty : TType) :
    hasLiveTask ts n ty = false ↔ liveCountNT ts n ty = 0 := by
  rw [lcNT_eq_countP, List.countP_eq_zero]
  simp [hasLiveTask]

theorem lcNT_push_same (ts : List TaskR) (n : String) (ty : TType) (extra : Option BundleRec) :
    liveCountNT (ts ++ [⟨n, ty, false, false, false, extra⟩]) n ty =
      liveCountNT ts n ty + 1 := by
  rw [lcNT_eq_countP, lcNT_eq_countP, List.countP_append]
  simp [List.countP_cons]

theorem lcNT_push_other (ts : List TaskR) (n : String) (ty : TType)
    (extra : Option BundleRec) (m : String) (tym : TType) (hne : ¬(n = m ∧ ty = tym)) :
    liveCountNT (ts ++ [⟨n, ty, false, false, false, extra⟩]) m tym =
      liveCountNT ts m tym := by
  rw [lcNT_eq_countP, lcNT_eq_countP, List.countP_append]
  rcases not_and_or.mp hne with h | h <;> simp [List.countP_cons, h]

theorem lcNT_cancelTasksIn_le (ts : List TaskR) (m : String) (tym : TType) (n : String)
    (ty : TType) :
    liveCountNT (cancelTasksIn ts m tym) n ty ≤ liveCountNT ts n ty := by
  rw [cancelTasksIn, lcNT_eq_countP, lcNT_eq_countP, List.countP_map]
  apply List.countP_mono_left
  intro x _ h
  simp only [Function.comp_apply] at h
  by_cases hm : (x.bundleName == m && x.ttype == tym) = true
  · rw [if_pos hm] at h
    simp at h
  · rw [if_neg hm] at h
    exact h

theorem lcNT_kickFlags_map (ts : List TaskR) (n : String) (ty : TType) :
    liveCountNT (ts.map kickFlags) n ty = liveCountNT ts n ty := by
  rw [lcNT_eq_countP, lcNT_eq_countP, List.countP_map]
  apply List.countP_congr
  intro x _
  by_cases hcond : (!x.canceled && x.failed && x.retry) = true <;>
    simp [kickFlags, hcond]

theorem schedInv_applySOp (exec : String → TType → ExecResult) (st : Sched) (op : SOp)
    (h : SchedInv st) : SchedInv (applySOp exec st op) := by
  cases op with
  | maybeAdd n ty =>
    dsimp only [applySOp]
    unfold _maybeAddTask
    by_cases hl : hasLiveTask st.tasks n ty = true
    · rw [if_pos hl]
      exact h
    · rw [if_neg hl]
      have hl' : hasLiveTask st.tasks n ty = false := by
        revert hl
        cases hasLiveTask st.tasks n ty <;> simp
      have h0 : liveCountNT st.tasks n ty = 0 := (hasLiveTask_false_iff _ _ _).mp hl'
      intro m tym
      apply Nat.le_trans (lcNT_doTasks_le exec _ m tym)
      dsimp only
      by_cases hkey : n = m ∧ ty = tym
      · obtain ⟨rfl, rfl⟩ := hkey
        rw [lcNT_push_same, h0]
      · rw [lcNT_push_other _ _ _ _ _ _ hkey]
        exact h m tym
  | cancel n ty =>
    dsimp only [applySOp, _cancelTask]
    intro m tym
    exact Nat.le_trans (lcNT_cancelTasksIn_le _ _ _ _ _) (h m tym)
  | drainNow =>
    dsimp only [applySOp]
    intro m tym
    exact Nat.le_trans (lcNT_doTasks_le exec _ m tym) (h m tym)
  | kick =>
    dsimp only [applySOp, kickStartTasks]
    intro m tym
    apply Nat.le_trans (lcNT_doTasks_le exec _ m tym)
    dsimp only
    rw [lcNT_kickFlags_map]
    exact h m tym

theorem schedInv_foldl (exec : String → TType → ExecResult) (ops : List SOp) :
    ∀ st, SchedInv st → SchedInv (ops.foldl (applySOp exec) st) := by
  induction ops with
  | nil => intro st h; exact h
  | cons op ops ih =>
    intro st h
    rw [List.foldl_cons]
    exact ih _ (schedInv_applySOp exec st op h)

/-- C4: every state reachable from the empty scheduler by any sequence of
client operations (maybe-add, cancel, drain, retry kick) holds at most one
live (non-canceled) task per (bundleName, type) pair; and a request to add a
task whose (bundle, type) already has a live task is dropped outright, the
state (and in particular the task list) left untouched. -/
theorem scheduler_dedup (exec : String → TType → ExecResult) :
    (∀ ops : List SOp, SchedInv (runSOps exec ops)) ∧
    (∀ (st : Sched) (n : String) (ty : TType) (extra : Option BundleRec),
      hasLiveTask st.tasks n ty = true →
        _maybeAddTask exec st n ty extra = ([], st)) := by
  constructor
  · intro ops
    unfold runSOps
    apply schedInv_foldl
    intro n ty
    simp [liveCountNT]
  · intro st n ty extra hl
    unfold _maybeAddTask
    rw [if_pos hl]

/-- Witness for C4: re-adding a bundle whose Load task is already queued live
leaves the scheduler untouched. -/
theorem scheduler_dedup_witness :
    _maybeAddTask (fun _ _ => ⟨[], none, false⟩)
        ⟨[⟨"b", TType.load, false, false, false, none⟩], false⟩ "b" TType.load none =
      ([], ⟨[⟨"b", TType.load, false, false, false, none⟩], false⟩) :=
  (scheduler_dedup (fun _ _ => ⟨[], none, false⟩)).2
    ⟨[⟨"b", TType.load, false, false, false, none⟩], false⟩ "b" TType.load none (by decide)


theorem getD_concat_self {α : Type} (l : List α) (x d : α) :
    (l ++ [x]).getD l.length d = x := by
  rw [List.getD_eq_getElem?_getD, List.getElem?_concat_length]
  rfl

theorem getD_concat_lt {α : Type} (l : List α) (x d : α) (a : Nat) (h : a < l.length) :
    (l ++ [x]).getD a d = l.getD a d := by
  rw [List.getD_eq_getElem?_getD, List.getD_eq_getElem?_getD, List.getElem?_append_left h]

theorem getD_set_ne {α : Type} (l : List α) (i j : Nat) (y d : α) (h : i ≠ j) :
    (l.set i y).getD j d = l.getD j d := by
  rw [List.getD_eq_getElem?_getD, List.getD_eq_getElem?_getD, List.getElem?_set_ne h]

theorem set_concat_self {α : Type} (l : List α) (x y : α) :
    (l ++ [x]).set l.length y = l ++ [y] := by
  induction l with
  | nil => rfl
  | cons a l ih => simp [ih]

theorem copyBundle_eq_none (h : Heap) (r : Nat) (hsz : (readObj h r).fileSizesRef = none) :
    _copyBundle h r =
      (⟨h.strArrs ++ [readStrArr h (readObj h r).filesRef], h.natArrs,
        h.objs ++ [⟨(readObj h r).name, h.strArrs.length, none, none⟩]⟩,
       h.objs.length) := by
  unfold _copyBundle
  dsimp only
  rw [hsz]
  rfl

theorem copyBundle_eq_some (h : Heap) (r : Nat) (sr : Nat)
    (hsz : (readObj h r).fileSizesRef = some sr) :
    _copyBundle h r =
      (⟨h.strArrs ++ [readStrArr h (readObj h r).filesRef], h.natArrs ++ [readNatArr h sr],
        h.objs ++ [⟨(readObj h r).name, h.strArrs.length, some h.natArrs.length, none⟩]⟩,
       h.objs.length) := by
  unfold _copyBundle
  dsimp only
  rw [hsz]
  rfl

theorem copyBundle_value (h : Heap) (r : Nat) :
    readBundleValue (_copyBundle h r).1 (_copyBundle h r).2 =
      ⟨(readBundleValue h r).name, (readBundleValue h r).files,
       (readBundleValue h r).fileSizes, none⟩ := by
  cases hsz : (readObj h r).fileSizesRef with
  | none =>
    have hv : readBundleValue h r =
        ⟨(readObj h r).name, readStrArr h (readObj h r).filesRef, none,
         (readObj h r).loaded⟩ := by
      unfold readBundleValue
      dsimp only
      rw [hsz]
      rfl
    rw [copyBundle_eq_none h r hsz, hv]
    dsimp only
    unfold readBundleValue readObj readStrArr readNatArr
    dsimp only
    rw [getD_concat_self]
    dsimp only
    rw [getD_concat_self]
    rfl
  | some sr =>
    have hv : readBundleValue h r =
        ⟨(readObj h r).name, readStrArr h (readObj h r).filesRef, some (readNatArr h sr),
         (readObj h r).loaded⟩ := by
      unfold readBundleValue
      dsimp only
      rw [hsz]
      rfl
    rw [copyBundle_eq_some h r sr hsz, hv]
    dsimp only
    unfold readBundleValue readObj readStrArr readNatArr
    dsimp only
    rw [getD_concat_self]
    dsimp only
    rw [getD_concat_self]
    dsimp only [Option.map]
    rw [getD_concat_self]

theorem writeObjLoaded_concat (sa : List (List String)) (na : List (List Nat))
    (objs : List BundleObj) (b : BundleObj) (v : Option Bool) :
    writeObjLoaded ⟨sa, na, objs ++ [b]⟩ objs.length v =
      ⟨sa, na, objs ++ [{ b with loaded := v }]⟩ := by
  unfold writeObjLoaded readObj
  dsimp only
  rw [getD_concat_self, set_concat_self]

theorem addBundleH_eq (st : RegistryH) (h : Heap) (r : Nat)
    (hnew : hasBundle st (readObj h r).name = false) :
    addBundleH st h r =
      (⟨st.bundles ++ [((readObj h r).name, (_copyBundle h r).2)]⟩,
       writeObjLoaded (_copyBundle h r).1 (_copyBundle h r).2 (some false)) := by
  unfold addBundleH
  dsimp only
  rw [hnew, if_neg (by simp)]

theorem lookupBundle_concat_self (st : RegistryH) (n : String) (v : Nat)
    (hnew : hasBundle st n = false) :
    lookupBundle ⟨st.bundles ++ [(n, v)]⟩ n = some v := by
  unfold lookupBundle
  dsimp only
  rw [List.find?_append]
  have h1 : st.bundles.find? (fun p => p.1 == n) = none := by
    rw [List.find?_eq_none]
    intro p hp
    simp [hasBundle] at hnew
    simp [hnew p.1 p.2 hp]
  rw [h1]
  simp

theorem readBundleValue_applyMut_frame (h : Heap) (s : Nat) (m : Mut)
    (hm : match m with
      | .setLoaded r0 _ => r0 ≠ s
      | .setName r0 _ => r0 ≠ s
      | .setFilesRef r0 _ => r0 ≠ s
      | .setFileSizesRef r0 _ => r0 ≠ s
      | .setStrElem a _ _ => a ≠ (readObj h s).filesRef
      | .setNatElem a _ _ => some a ≠ (readObj h s).fileSizesRef) :
    readBundleValue (applyMut h m) s = readBundleValue h s := by
  cases m with
  | setLoaded r0 v =>
    unfold readBundleValue applyMut readObj readStrArr readNatArr
    dsimp only
    rw [getD_set_ne _ _ _ _ _ (fun he => hm he)]
  | setName r0 v =>
    unfold readBundleValue applyMut readObj readStrArr readNatArr
    dsimp only
    rw [getD_set_ne _ _ _ _ _ (fun he => hm he)]
  | setFilesRef r0 a =>
    unfold readBundleValue applyMut readObj readStrArr readNatArr
    dsimp only
    rw [getD_set_ne _ _ _ _ _ (fun he => hm he)]
  | setFileSizesRef r0 a =>
    unfold readBundleValue applyMut readObj readStrArr readNatArr
    dsimp only
    rw [getD_set_ne _ _ _ _ _ (fun he => hm he)]
  | setStrElem a i v =>
    have hm' : a ≠ (readObj h s).filesRef := hm
    have hm2 : a ≠ (h.objs.getD s default).filesRef := hm'
    unfold readBundleValue applyMut readObj readStrArr readNatArr
    dsimp only
    rw [getD_set_ne _ _ _ _ _ hm2]
  | setNatElem a i v =>
    have hm' : some a ≠ (readObj h s).fileSizesRef := hm
    cases hq : (readObj h s).fileSizesRef with
    | none =>
      have hq2 : (h.objs.getD s default).fileSizesRef = none := hq
      unfold readBundleValue applyMut readObj readStrArr readNatArr
      dsimp only
      rw [hq2]
      rfl
    | some q =>
      have hne : a ≠ q := fun he => hm' (by rw [hq, he])
      have hq2 : (h.objs.getD s default).fileSizesRef = some q := hq
      unfold readBundleValue applyMut readObj readStrArr readNatArr
      dsimp only
      rw [hq2]
      dsimp only [Option.map]
      rw [getD_set_ne _ _ _ _ _ hne]



theorem readObj_cc_self2 (sa : List (List String)) (na : List (List Nat))
    (objs : List BundleObj) (b c : BundleObj) :
    readObj ⟨sa, na, (objs ++ [b]) ++ [c]⟩ (objs.length + 1) = c := by
  unfold readObj
  dsimp only
  rw [show objs.length + 1 = (objs ++ [b]).length from by simp]
  exact getD_concat_self _ _ _

theorem readObj_cc_mid (sa : List (List String)) (na : List (List Nat))
    (objs : List BundleObj) (b c : BundleObj) :
    readObj ⟨sa, na, (objs ++ [b]) ++ [c]⟩ objs.length = b := by
  unfold readObj
  dsimp only
  rw [getD_concat_lt _ _ _ _ (by simp)]
  exact getD_concat_self _ _ _

theorem readObj_cc_lt (sa : List (List String)) (na : List (List Nat))
    (objs : List BundleObj) (b c : BundleObj) (i : Nat) (hi : i < objs.length) :
    readObj ⟨sa, na, (objs ++ [b]) ++ [c]⟩ i = objs.getD i default := by
  unfold readObj
  dsimp only
  rw [getD_concat_lt _ _ _ _ (by simp; omega), getD_concat_lt _ _ _ _ hi]

/-- C1 counterexample: after addBundle of a registered-fresh bundle, getBundle
returns a record whose loaded property is absent (none in the embedding), not
false: _copyBundle copies name, files and fileSizes but never the loaded
field; only the stored entry has loaded set to false. -/
theorem getBundle_loaded_counterexample :
    ((getBundleH (addBundleH ⟨[]⟩ ⟨[["f1"]], [], [⟨"b1", 0, none, none⟩]⟩ 0).1
        (addBundleH ⟨[]⟩ ⟨[["f1"]], [], [⟨"b1", 0, none, none⟩]⟩ 0).2 "b1").2 ≠ none) ∧
    (readBundleValue
        (getBundleH (addBundleH ⟨[]⟩ ⟨[["f1"]], [], [⟨"b1", 0, none, none⟩]⟩ 0).1
          (addBundleH ⟨[]⟩ ⟨[["f1"]], [], [⟨"b1", 0, none, none⟩]⟩ 0).2 "b1").1
        ((getBundleH (addBundleH ⟨[]⟩ ⟨[["f1"]], [], [⟨"b1", 0, none, none⟩]⟩ 0).1
          (addBundleH ⟨[]⟩ ⟨[["f1"]], [], [⟨"b1", 0, none, none⟩]⟩ 0).2 "b1").2.getD 0)).loaded
      ≠ some false := by
  decide

/-- C1 (amended): adding a fresh-named bundle stores a defensive copy whose
value equals the caller's (name, files, and fileSizes when present) with
loaded set to false; getBundle then returns a fresh copy of the stored entry
carrying the same name, files and fileSizes but no loaded property; and no
client mutation of the returned record or of the caller's original object (or
of the arrays either references) changes the stored entry's value. -/
theorem addBundle_getBundle_copy (st : RegistryH) (h : Heap) (r : Nat)
    (hr : r < h.objs.length)
    (hfr : (readObj h r).filesRef < h.strArrs.length)
    (hsr : ∀ sr, (readObj h r).fileSizesRef = some sr → sr < h.natArrs.length)
    (hnew : hasBundle st (readObj h r).name = false) :
    lookupBundle (addBundleH st h r).1 (readObj h r).name = some h.objs.length ∧
    readBundleValue (addBundleH st h r).2 h.objs.length =
      ⟨(readBundleValue h r).name, (readBundleValue h r).files,
       (readBundleValue h r).fileSizes, some false⟩ ∧
    (getBundleH (addBundleH st h r).1 (addBundleH st h r).2 (readObj h r).name).2 =
      some (h.objs.length + 1) ∧
    readBundleValue
        (getBundleH (addBundleH st h r).1 (addBundleH st h r).2 (readObj h r).name).1
        (h.objs.length + 1) =
      ⟨(readBundleValue h r).name, (readBundleValue h r).files,
       (readBundleValue h r).fileSizes, none⟩ ∧
    (∀ m : Mut,
      (MutOnRecord
          (getBundleH (addBundleH st h r).1 (addBundleH st h r).2 (readObj h r).name).1
          (h.objs.length + 1) m ∨
       MutOnRecord
          (getBundleH (addBundleH st h r).1 (addBundleH st h r).2 (readObj h r).name).1
          r m) →
      readBundleValue
          (applyMut
            (getBundleH (addBundleH st h r).1 (addBundleH st h r).2 (readObj h r).name).1
            m)
          h.objs.length =
        readBundleValue
          (getBundleH (addBundleH st h r).1 (addBundleH st h r).2 (readObj h r).name).1
          h.objs.length) := by
  cases hsz : (readObj h r).fileSizesRef with
  | none =>
    have hv : readBundleValue h r =
        ⟨(readObj h r).name, readStrArr h (readObj h r).filesRef, none,
         (readObj h r).loaded⟩ := by
      unfold readBundleValue
      dsimp only
      rw [hsz]
      rfl
    have hadd : addBundleH st h r =
        (⟨st.bundles ++ [((readObj h r).name, h.objs.length)]⟩,
         ⟨h.strArrs ++ [readStrArr h (readObj h r).filesRef], h.natArrs,
          h.objs ++ [⟨(readObj h r).name, h.strArrs.length, none, some false⟩]⟩) := by
      rw [addBundleH_eq st h r hnew, copyBundle_eq_none h r hsz]
      dsimp only
      rw [writeObjLoaded_concat]
    rw [hadd]
    dsimp only
    have hobjB : readObj
        (⟨h.strArrs ++ [readStrArr h (readObj h r).filesRef], h.natArrs,
          h.objs ++ [⟨(readObj h r).name, h.strArrs.length, none, some false⟩]⟩ : Heap)
        h.objs.length =
        ⟨(readObj h r).name, h.strArrs.length, none, some false⟩ := by
      unfold readObj
      dsimp only
      exact getD_concat_self _ _ _
    have hstored : readBundleValue
        (⟨h.strArrs ++ [readStrArr h (readObj h r).filesRef], h.natArrs,
          h.objs ++ [⟨(readObj h r).name, h.strArrs.length, none, some false⟩]⟩ : Heap)
        h.objs.length =
        ⟨(readObj h r).name, readStrArr h (readObj h r).filesRef, none, some false⟩ := by
      unfold readBundleValue readObj readStrArr readNatArr
      dsimp only
      rw [getD_concat_self]
      dsimp only
      rw [getD_concat_self]
      rfl
    have hlook := lookupBundle_concat_self st (readObj h r).name h.objs.length hnew
    have hget : getBundleH
        (⟨st.bundles ++ [((readObj h r).name, h.objs.length)]⟩ : RegistryH)
        (⟨h.strArrs ++ [readStrArr h (readObj h r).filesRef], h.natArrs,
          h.objs ++ [⟨(readObj h r).name, h.strArrs.length, none, some false⟩]⟩ : Heap)
        (readObj h r).name =
        ((_copyBundle
            (⟨h.strArrs ++ [readStrArr h (readObj h r).filesRef], h.natArrs,
              h.objs ++ [⟨(readObj h r).name, h.strArrs.length, none, some false⟩]⟩ : Heap)
            h.objs.length).1,
         some (_copyBundle
            (⟨h.strArrs ++ [readStrArr h (readObj h r).filesRef], h.natArrs,
              h.objs ++ [⟨(readObj h r).name, h.strArrs.length, none, some false⟩]⟩ : Heap)
            h.objs.length).2) := by
      unfold getBundleH
      rw [hlook]
    have hC2 := copyBundle_eq_none
      (⟨h.strArrs ++ [readStrArr h (readObj h r).filesRef], h.natArrs,
        h.objs ++ [⟨(readObj h r).name, h.strArrs.length, none, some false⟩]⟩ : Heap)
      h.objs.length (by rw [hobjB])
    refine ⟨hlook, ?_, ?_, ?_, ?_⟩
    · rw [hstored, hv]
    · rw [hget]
      dsimp only
      rw [hC2]
      dsimp only
      simp
    · rw [hget]
      dsimp only
      have hidx : (_copyBundle
          (⟨h.strArrs ++ [readStrArr h (readObj h r).filesRef], h.natArrs,
            h.objs ++ [⟨(readObj h r).name, h.strArrs.length, none, some false⟩]⟩ : Heap)
          h.objs.length).2 = h.objs.length + 1 := by
        rw [hC2]
        simp
      rw [← hidx, copyBundle_value, hstored, hv]
    · intro m hor
      rw [hget] at hor ⊢
      dsimp only at hor ⊢
      rw [hC2] at hor ⊢
      dsimp only at hor ⊢
      apply readBundleValue_applyMut_frame
      cases m with
      | setLoaded r0 v =>
        dsimp only
        rcases hor with hm | hm <;> dsimp only [MutOnRecord] at hm <;> omega
      | setName r0 v =>
        dsimp only
        rcases hor with hm | hm <;> dsimp only [MutOnRecord] at hm <;> omega
      | setFilesRef r0 a =>
        dsimp only
        rcases hor with hm | hm <;> dsimp only [MutOnRecord] at hm <;> omega
      | setFileSizesRef r0 a =>
        dsimp only
        rcases hor with hm | hm <;> dsimp only [MutOnRecord] at hm <;> omega
      | setStrElem a i v =>
        dsimp only
        rw [readObj_cc_mid]
        dsimp only
        rcases hor with hm | hm
        · dsimp only [MutOnRecord] at hm
          rw [readObj_cc_self2] at hm
          dsimp only at hm
          rw [hm]
          intro he
          simp at he
        · dsimp only [MutOnRecord] at hm
          rw [readObj_cc_lt _ _ _ _ _ _ hr] at hm
          have hfr2 : (h.objs.getD r default).filesRef < h.strArrs.length := hfr
          omega
      | setNatElem a i v =>
        dsimp only
        rw [readObj_cc_mid]
        dsimp only
        simp
  | some sr =>
    have hv : readBundleValue h r =
        ⟨(readObj h r).name, readStrArr h (readObj h r).filesRef, some (readNatArr h sr),
         (readObj h r).loaded⟩ := by
      unfold readBundleValue
      dsimp only
      rw [hsz]
      rfl
    have hadd : addBundleH st h r =
        (⟨st.bundles ++ [((readObj h r).name, h.objs.length)]⟩,
         ⟨h.strArrs ++ [readStrArr h (readObj h r).filesRef],
          h.natArrs ++ [readNatArr h sr],
          h.objs ++ [⟨(readObj h r).name, h.strArrs.length, some h.natArrs.length,
            some false⟩]⟩) := by
      rw [addBundleH_eq st h r hnew, copyBundle_eq_some h r sr hsz]
      dsimp only
      rw [writeObjLoaded_concat]
    rw [hadd]
    dsimp only
    have hobjB : readObj
        (⟨h.strArrs ++ [readStrArr h (readObj h r).filesRef],
          h.natArrs ++ [readNatArr h sr],
          h.objs ++ [⟨(readObj h r).name, h.strArrs.length, some h.natArrs.length,
            some false⟩]⟩ : Heap)
        h.objs.length =
        ⟨(readObj h r).name, h.strArrs.length, some h.natArrs.length, some false⟩ := by
      unfold readObj
      dsimp only
      exact getD_concat_self _ _ _
    have hstored : readBundleValue
        (⟨h.strArrs ++ [readStrArr h (readObj h r).filesRef],
          h.natArrs ++ [readNatArr h sr],
          h.objs ++ [⟨(readObj h r).name, h.strArrs.length, some h.natArrs.length,
            some false⟩]⟩ : Heap)
        h.objs.length =
        ⟨(readObj h r).name, readStrArr h (readObj h r).filesRef, some (readNatArr h sr),
         some false⟩ := by
      unfold readBundleValue readObj readStrArr readNatArr
      dsimp only
      rw [getD_concat_self]
      dsimp only
      rw [getD_concat_self]
      dsimp only [Option.map]
      rw [getD_concat_self]
    have hlook := lookupBundle_concat_self st (readObj h r).name h.objs.length hnew
    have hget : getBundleH
        (⟨st.bundles ++ [((readObj h r).name, h.objs.length)]⟩ : RegistryH)
        (⟨h.strArrs ++ [readStrArr h (readObj h r).filesRef],
          h.natArrs ++ [readNatArr h sr],
          h.objs ++ [⟨(readObj h r).name, h.strArrs.length, some h.natArrs.length,
            some false⟩]⟩ : Heap)
        (readObj h r).name =
        ((_copyBundle
            (⟨h.strArrs ++ [readStrArr h (readObj h r).filesRef],
              h.natArrs ++ [readNatArr h sr],
              h.objs ++ [⟨(readObj h r).name, h.strArrs.length, some h.natArrs.length,
                some false⟩]⟩ : Heap)
            h.objs.length).1,
         some (_copyBundle
            (⟨h.strArrs ++ [readStrArr h (readObj h r).filesRef],
              h.natArrs ++ [readNatArr h sr],
              h.objs ++ [⟨(readObj h r).name, h.strArrs.length, some h.natArrs.length,
                some false⟩]⟩ : Heap)
            h.objs.length).2) := by
      unfold getBundleH
      rw [hlook]
    have hC2 := copyBundle_eq_some
      (⟨h.strArrs ++ [readStrArr h (readObj h r).filesRef],
        h.natArrs ++ [readNatArr h sr],
        h.objs ++ [⟨(readObj h r).name, h.strArrs.length, some h.natArrs.length,
          some false⟩]⟩ : Heap)
      h.objs.length h.natArrs.length (by rw [hobjB])
    refine ⟨hlook, ?_, ?_, ?_, ?_⟩
    · rw [hstored, hv]
    · rw [hget]
      dsimp only
      rw [hC2]
      dsimp only
      simp
    · rw [hget]
      dsimp only
      have hidx : (_copyBundle
          (⟨h.strArrs ++ [readStrArr h (readObj h r).filesRef],
            h.natArrs ++ [readNatArr h sr],
            h.objs ++ [⟨(readObj h r).name, h.strArrs.length, some h.natArrs.length,
              some false⟩]⟩ : Heap)
          h.objs.length).2 = h.objs.length + 1 := by
        rw [hC2]
        simp
      rw [← hidx, copyBundle_value, hstored, hv]
    · intro m hor
      rw [hget] at hor ⊢
      dsimp only at hor ⊢
      rw [hC2] at hor ⊢
      dsimp only at hor ⊢
      apply readBundleValue_applyMut_frame
      cases m with
      | setLoaded r0 v =>
        dsimp only
        rcases hor with hm | hm <;> dsimp only [MutOnRecord] at hm <;> omega
      | setName r0 v =>
        dsimp only
        rcases hor with hm | hm <;> dsimp only [MutOnRecord] at hm <;> omega
      | setFilesRef r0 a =>
        dsimp only
        rcases hor with hm | hm <;> dsimp only [MutOnRecord] at hm <;> omega
      | setFileSizesRef r0 a =>
        dsimp only
        rcases hor with hm | hm <;> dsimp only [MutOnRecord] at hm <;> omega
      | setStrElem a i v =>
        dsimp only
        rw [readObj_cc_mid]
        dsimp only
        rcases hor with hm | hm
        · dsimp only [MutOnRecord] at hm
          rw [readObj_cc_self2] at hm
          dsimp only at hm
          rw [hm]
          intro he
          simp at he
        · dsimp only [MutOnRecord] at hm
          rw [readObj_cc_lt _ _ _ _ _ _ hr] at hm
          have hfr2 : (h.objs.getD r default).filesRef < h.strArrs.length := hfr
          omega
      | setNatElem a i v =>
        dsimp only
        rw [readObj_cc_mid]
        dsimp only
        rcases hor with hm | hm
        · dsimp only [MutOnRecord] at hm
          rw [readObj_cc_self2] at hm
          dsimp only at hm
          simp at hm ⊢
          omega
        · dsimp only [MutOnRecord] at hm
          rw [readObj_cc_lt _ _ _ _ _ _ hr] at hm
          have hsz2 : (h.objs.getD r default).fileSizesRef = some sr := hsz
          rw [hsz2] at hm
          simp at hm ⊢
          have hlt := hsr sr hsz
          omega


/-- Witness for C1 (amended) at a one-bundle heap with fileSizes present. -/
theorem addBundle_getBundle_copy_witness :
    lookupBundle (addBundleH ⟨[]⟩ ⟨[["f1", "f2"]], [[3, 4]], [⟨"b1", 0, some 0, none⟩]⟩ 0).1
        "b1" = some 1 ∧
    readBundleValue
        (getBundleH
          (addBundleH ⟨[]⟩ ⟨[["f1", "f2"]], [[3, 4]], [⟨"b1", 0, some 0, none⟩]⟩ 0).1
          (addBundleH ⟨[]⟩ ⟨[["f1", "f2"]], [[3, 4]], [⟨"b1", 0, some 0, none⟩]⟩ 0).2
          "b1").1 2 =
      ⟨"b1", ["f1", "f2"], some [3, 4], none⟩ := by
  have hth := addBundle_getBundle_copy ⟨[]⟩
    ⟨[["f1", "f2"]], [[3, 4]], [⟨"b1", 0, some 0, none⟩]⟩ 0
    (by decide) (by decide) (by intro sr hs; cases hs; decide) (by decide)
  exact ⟨hth.1, hth.2.2.2.1⟩

end Dam
